import Mathlib

/-!
Shallow embedding of parts of the rocALUTION sparse linear algebra toolkit:
the host 2D Laplace stencil operator (host_stencil_laplace2d.cpp), the
HIP accelerator vector (hip_vector.cpp) and the multigrid hierarchy setters
(multigrid.cpp), together with proofs about the claims of the specification.

Real and complex floating point element types are modelled over ℚ (the code
under study performs only ring operations, comparisons and absolute values).
C buffers are modelled as Lean lists; a fatal outcome (a failed assert, a
FATAL_ERROR call, or an out-of-bounds buffer access, which is undefined
behaviour in the C++ source) is modelled as the `Option.none` result.
-/

namespace RocSpec

/-- A monadic left fold over `Option` agrees with the pure fold of `step`
whenever every iteration succeeds with `step`, given an invariant `P`
preserved by `step`. -/
theorem foldlM_eq_foldl {α β : Type} (F : α → β → Option α) (step : α → β → α)
    (P : α → Prop) :
    ∀ (L : List β),
      (∀ o b, b ∈ L → P o → P (step o b)) →
      (∀ o b, b ∈ L → P o → F o b = some (step o b)) →
      ∀ o, P o → L.foldlM F o = some (L.foldl step o) := by
  intro L
  induction L with
  | nil => intro _ _ o _; rfl
  | cons hd tl ih =>
    intro hPres hF o hP
    rw [List.foldlM_cons, hF o hd (List.mem_cons_self hd tl) hP]
    rw [List.foldl_cons]
    exact ih (fun o b hb => hPres o b (List.mem_cons_of_mem hd hb))
      (fun o b hb => hF o b (List.mem_cons_of_mem hd hb))
      (step o hd) (hPres o hd (List.mem_cons_self hd tl) hP)

/-- Characterization of a left fold of buffer writes. Each iteration `b`
rewrites exactly the positions described by `cover b`, to the value `v b k`,
and keeps the length. The fold then leaves uncovered positions alone and
stores `v b k` at every position covered by some `b`, provided all covering
iterations agree on the value. -/
theorem foldl_writes {β : Type} (step : List ℚ → β → List ℚ)
    (cover : β → Nat → Prop) (v : β → Nat → ℚ) :
    ∀ (L : List β),
      (∀ o b, b ∈ L → (step o b).length = o.length) →
      (∀ o b k, b ∈ L → cover b k → k < o.length → (step o b).getD k 0 = v b k) →
      (∀ o b k, b ∈ L → ¬ cover b k → (step o b).getD k 0 = o.getD k 0) →
      ∀ o : List ℚ,
        (L.foldl step o).length = o.length ∧
        (∀ k, (∀ b ∈ L, ¬ cover b k) → (L.foldl step o).getD k 0 = o.getD k 0) ∧
        (∀ k b, b ∈ L → cover b k →
          (∀ b2 ∈ L, cover b2 k → v b2 k = v b k) →
          k < o.length → (L.foldl step o).getD k 0 = v b k) := by
  intro L
  induction L with
  | nil =>
    intro _ _ _ o
    refine ⟨rfl, fun k _ => rfl, fun k b hb => absurd hb (List.not_mem_nil b)⟩
  | cons hd tl ih =>
    intro hlen hmem hnon o
    have hlen' := fun o b hb => hlen o b (List.mem_cons_of_mem hd hb)
    have hmem' := fun o b k hb => hmem o b k (List.mem_cons_of_mem hd hb)
    have hnon' := fun o b k hb => hnon o b k (List.mem_cons_of_mem hd hb)
    have IH := ih hlen' hmem' hnon' (step o hd)
    have hhd : hd ∈ hd :: tl := List.mem_cons_self hd tl
    rw [List.foldl_cons]
    refine ⟨IH.1.trans (hlen o hd hhd), ?_, ?_⟩
    · intro k hk
      rw [IH.2.1 k (fun b hb => hk b (List.mem_cons_of_mem hd hb))]
      exact hnon o hd k hhd (hk hd hhd)
    · intro k b hb hc hagree hklen
      by_cases hex : ∃ b2 ∈ tl, cover b2 k
      · obtain ⟨b2, hb2, hc2⟩ := hex
        have := IH.2.2 k b2 hb2 hc2
          (fun b3 hb3 hc3 =>
            (hagree b3 (List.mem_cons_of_mem hd hb3) hc3).trans
              (hagree b2 (List.mem_cons_of_mem hd hb2) hc2).symm)
          (by rw [hlen o hd hhd]; exact hklen)
        rw [this]
        exact hagree b2 (List.mem_cons_of_mem hd hb2) hc2
      · push_neg at hex
        rw [IH.2.1 k hex]
        rcases List.mem_cons.mp hb with rfl | hbtl
        · exact hmem o b k hhd hc hklen
        · exact absurd hc (hex b hbtl)

/-- Reading a just-written position of a buffer. -/
theorem getD_set_eq (l : List ℚ) (i : Nat) (hi : i < l.length) (a : ℚ) :
    (l.set i a).getD i 0 = a := by
  simp [List.getD_eq_getElem?_getD, List.getElem?_set_self, hi]

/-- Reading any other position of a buffer after a write. -/
theorem getD_set_ne (l : List ℚ) {i j : Nat} (h : i ≠ j) (a : ℚ) :
    (l.set i a).getD j 0 = l.getD j 0 := by
  simp [List.getD_eq_getElem?_getD, List.getElem?_set_ne h]

/-- In-bounds `getD` coincides with `get`. -/
theorem getD_of_lt (l : List ℚ) (k : Nat) (h : k < l.length) :
    l.getD k 0 = l.get ⟨k, h⟩ := by
  simp [List.getD_eq_getElem?_getD, List.getElem?_eq_getElem h]

namespace Laplace2D

/-- Guarded read of a host buffer at a (possibly negative) int index, as in
`cast_in->vec_[i]`; an access outside the buffer is undefined behaviour in the
C++ source and is modelled as failure. -/
def rd (xin : List ℚ) (i : Int) : Option ℚ :=
  if 0 ≤ i ∧ i < xin.length then some (xin.getD i.toNat 0) else none

/-- One iteration of the interior double loop of
`HostStencilLaplace2D::Apply`: `out[idx] = -in[idx-s] - in[idx-1] + 4 in[idx]
- in[idx+1] - in[idx+s]` at `idx = i*s + j`. -/
def interiorBody (s : Nat) (xin out : List ℚ) (i j : Nat) : Option (List ℚ) := do
  let idx : Int := (i * s + j : Nat)
  let a ← rd xin (idx - s)
  let b ← rd xin (idx - 1)
  let c ← rd xin idx
  let d ← rd xin (idx + 1)
  let e ← rd xin (idx + s)
  pure (out.set idx.toNat ((-1) * a + (-1) * b + 4 * c + (-1) * d + (-1) * e))

/-- One iteration of the first boundary-layer loop of `Apply`: the top-row
statement at `idx = 0*s + j` (the `i-1` term is dropped) followed by the
bottom-row statement at `idx = (s-1)*s + j` (the `i+1` term is dropped). -/
def rowBody (s : Nat) (xin out : List ℚ) (j : Nat) : Option (List ℚ) := do
  let idx1 : Int := (j : Nat)
  let a ← rd xin (idx1 - 1)
  let b ← rd xin idx1
  let c ← rd xin (idx1 + 1)
  let d ← rd xin (idx1 + s)
  let o1 := out.set idx1.toNat ((-1) * a + 4 * b + (-1) * c + (-1) * d)
  let idx2 : Int := ((s - 1) * s + j : Nat)
  let e ← rd xin (idx2 - s)
  let f ← rd xin (idx2 - 1)
  let g ← rd xin idx2
  let h ← rd xin (idx2 + 1)
  pure (o1.set idx2.toNat ((-1) * e + (-1) * f + 4 * g + (-1) * h))

/-- One iteration of the second boundary-layer loop of `Apply`: the
left-column statement at `idx = i*s + 0` (the `j-1` term is dropped) followed
by the right-column statement at `idx = i*s + s-1` (the `j+1` term is
dropped). -/
def colBody (s : Nat) (xin out : List ℚ) (i : Nat) : Option (List ℚ) := do
  let idx1 : Int := (i * s : Nat)
  let a ← rd xin (idx1 - s)
  let b ← rd xin idx1
  let c ← rd xin (idx1 + 1)
  let d ← rd xin (idx1 + s)
  let o1 := out.set idx1.toNat ((-1) * a + 4 * b + (-1) * c + (-1) * d)
  let idx2 : Int := (i * s + (s - 1) : Nat)
  let e ← rd xin (idx2 - s)
  let f ← rd xin (idx2 - 1)
  let g ← rd xin idx2
  let h ← rd xin (idx2 + s)
  pure (o1.set idx2.toNat ((-1) * e + (-1) * f + 4 * g + (-1) * h))

/-- The four corner-point statements at the end of `Apply`, in source
order: `(0,0)`, `(0,s-1)`, `(s-1,0)`, `(s-1,s-1)`. -/
def corners (s : Nat) (xin out : List ℚ) : Option (List ℚ) := do
  let a ← rd xin 0
  let b ← rd xin 1
  let c ← rd xin s
  let o1 := out.set 0 (4 * a + (-1) * b + (-1) * c)
  let idx2 : Int := (s - 1 : Nat)
  let d ← rd xin (idx2 - 1)
  let e ← rd xin idx2
  let f ← rd xin (idx2 + s)
  let o2 := o1.set idx2.toNat ((-1) * d + 4 * e + (-1) * f)
  let idx3 : Int := ((s - 1) * s : Nat)
  let g ← rd xin (idx3 - s)
  let h ← rd xin idx3
  let p ← rd xin (idx3 + 1)
  let o3 := o2.set idx3.toNat ((-1) * g + 4 * h + (-1) * p)
  let idx4 : Int := ((s - 1) * s + (s - 1) : Nat)
  let q ← rd xin (idx4 - s)
  let r ← rd xin (idx4 - 1)
  let t ← rd xin idx4
  pure (o3.set idx4.toNat ((-1) * q + (-1) * r + 4 * t))

/-- `HostStencilLaplace2D::Apply(in, out)` on a grid of side `s`
(`size_ = s`, `ndim_ = 2`): interior double loop, the two boundary-layer
loops, then the four corner points. When `ndim_ > 0 && size_ > 0` fails the
body is skipped and `out` is untouched. The entry assertions compare both
vector sizes against `get_nrow() = s*s` (the stencil dimension, `pow(size_,
ndim_)` in the base class). -/
def Apply (s : Nat) (xin out : List ℚ) : Option (List ℚ) :=
  if 0 < s then
    if xin.length = s * s ∧ out.length = s * s then do
      let o1 ← (List.range' 1 (s - 2)).foldlM
        (fun o i => (List.range' 1 (s - 2)).foldlM
          (fun o2 j => interiorBody s xin o2 i j) o) out
      let o2 ← (List.range' 1 (s - 2)).foldlM (fun o j => rowBody s xin o j) o1
      let o3 ← (List.range' 1 (s - 2)).foldlM (fun o i => colBody s xin o i) o2
      corners s xin o3
    else none
  else some out

/-- Interior iteration of `HostStencilLaplace2D::ApplyAdd`: identical to
`interiorBody` except that the stencil expression is added onto `out[idx]`
with `+=`. Note that the `scalar` argument of `ApplyAdd` appears nowhere in
its body in the source. -/
def interiorBodyAdd (s : Nat) (xin out : List ℚ) (i j : Nat) : Option (List ℚ) := do
  let idx : Int := (i * s + j : Nat)
  let a ← rd xin (idx - s)
  let b ← rd xin (idx - 1)
  let c ← rd xin idx
  let d ← rd xin (idx + 1)
  let e ← rd xin (idx + s)
  pure (out.set idx.toNat
    (out.getD idx.toNat 0 + ((-1) * a + (-1) * b + 4 * c + (-1) * d + (-1) * e)))

/-- Boundary-row iteration of `ApplyAdd` (accumulating variant of
`rowBody`). -/
def rowBodyAdd (s : Nat) (xin out : List ℚ) (j : Nat) : Option (List ℚ) := do
  let idx1 : Int := (j : Nat)
  let a ← rd xin (idx1 - 1)
  let b ← rd xin idx1
  let c ← rd xin (idx1 + 1)
  let d ← rd xin (idx1 + s)
  let o1 := out.set idx1.toNat
    (out.getD idx1.toNat 0 + ((-1) * a + 4 * b + (-1) * c + (-1) * d))
  let idx2 : Int := ((s - 1) * s + j : Nat)
  let e ← rd xin (idx2 - s)
  let f ← rd xin (idx2 - 1)
  let g ← rd xin idx2
  let h ← rd xin (idx2 + 1)
  pure (o1.set idx2.toNat
    (o1.getD idx2.toNat 0 + ((-1) * e + (-1) * f + 4 * g + (-1) * h)))

/-- Boundary-column iteration of `ApplyAdd` (accumulating variant of
`colBody`). -/
def colBodyAdd (s : Nat) (xin out : List ℚ) (i : Nat) : Option (List ℚ) := do
  let idx1 : Int := (i * s : Nat)
  let a ← rd xin (idx1 - s)
  let b ← rd xin idx1
  let c ← rd xin (idx1 + 1)
  let d ← rd xin (idx1 + s)
  let o1 := out.set idx1.toNat
    (out.getD idx1.toNat 0 + ((-1) * a + 4 * b + (-1) * c + (-1) * d))
  let idx2 : Int := (i * s + (s - 1) : Nat)
  let e ← rd xin (idx2 - s)
  let f ← rd xin (idx2 - 1)
  let g ← rd xin idx2
  let h ← rd xin (idx2 + s)
  pure (o1.set idx2.toNat
    (o1.getD idx2.toNat 0 + ((-1) * e + (-1) * f + 4 * g + (-1) * h)))

/-- Corner-point statements of `ApplyAdd` (accumulating variant of
`corners`). -/
def cornersAdd (s : Nat) (xin out : List ℚ) : Option (List ℚ) := do
  let a ← rd xin 0
  let b ← rd xin 1
  let c ← rd xin s
  let o1 := out.set 0 (out.getD 0 0 + (4 * a + (-1) * b + (-1) * c))
  let idx2 : Int := (s - 1 : Nat)
  let d ← rd xin (idx2 - 1)
  let e ← rd xin idx2
  let f ← rd xin (idx2 + s)
  let o2 := o1.set idx2.toNat
    (o1.getD idx2.toNat 0 + ((-1) * d + 4 * e + (-1) * f))
  let idx3 : Int := ((s - 1) * s : Nat)
  let g ← rd xin (idx3 - s)
  let h ← rd xin idx3
  let p ← rd xin (idx3 + 1)
  let o3 := o2.set idx3.toNat
    (o2.getD idx3.toNat 0 + ((-1) * g + 4 * h + (-1) * p))
  let idx4 : Int := ((s - 1) * s + (s - 1) : Nat)
  let q ← rd xin (idx4 - s)
  let r ← rd xin (idx4 - 1)
  let t ← rd xin idx4
  pure (o3.set idx4.toNat
    (o3.getD idx4.toNat 0 + ((-1) * q + (-1) * r + 4 * t)))

/-- `HostStencilLaplace2D::ApplyAdd(in, scalar, out)`. The structure mirrors
`Apply` with `+=` statements; the `scalar` parameter is declared but never
used in the body of the source function. -/
def ApplyAdd (s : Nat) (xin : List ℚ) (scalar : ℚ) (out : List ℚ) :
    Option (List ℚ) :=
  if 0 < s then
    if xin.length = s * s ∧ out.length = s * s then do
      let o1 ← (List.range' 1 (s - 2)).foldlM
        (fun o i => (List.range' 1 (s - 2)).foldlM
          (fun o2 j => interiorBodyAdd s xin o2 i j) o) out
      let o2 ← (List.range' 1 (s - 2)).foldlM (fun o j => rowBodyAdd s xin o j) o1
      let o3 ← (List.range' 1 (s - 2)).foldlM (fun o i => colBodyAdd s xin o i) o2
      cornersAdd s xin o3
    else none
  else some out

/-- The entry of the 5-point Laplacian with the stencil truncated at the
boundary, stated as the spec states it: `4 in[i,j]` minus the sum of `in` at
the existing grid neighbours. -/
def laplaceEntry (s : Nat) (xin : List ℚ) (idx : Nat) : ℚ :=
  4 * xin.getD idx 0
    - (if 1 ≤ idx / s then xin.getD (idx - s) 0 else 0)
    - (if idx / s + 1 < s then xin.getD (idx + s) 0 else 0)
    - (if 1 ≤ idx % s then xin.getD (idx - 1) 0 else 0)
    - (if idx % s + 1 < s then xin.getD (idx + 1) 0 else 0)

/-- The matrix-vector product of the truncated 5-point Laplacian on the
`s × s` grid, the specification-side description of `Apply`. -/
def laplaceSpec (s : Nat) (xin : List ℚ) : List ℚ :=
  (List.range (s * s)).map (laplaceEntry s xin)

theorem grid_lt {s i j : Nat} (hi : i < s) (hj : j < s) : i * s + j < s * s := by
  have h1 : i * s + j < (i + 1) * s := by
    rw [add_mul, one_mul]
    exact Nat.add_lt_add_left hj _
  exact lt_of_lt_of_le h1 (Nat.mul_le_mul_right s hi)

theorem grid_ge {s : Nat} (j : Nat) {i : Nat} (hi : 1 ≤ i) : s ≤ i * s + j := by
  have h1 : 1 * s ≤ i * s := Nat.mul_le_mul_right s hi
  rw [one_mul] at h1
  exact le_trans h1 (Nat.le_add_right _ _)

theorem grid_div {s i j : Nat} (hs : 0 < s) (hj : j < s) : (i * s + j) / s = i := by
  rw [Nat.mul_comm, Nat.mul_add_div hs, Nat.div_eq_of_lt hj, Nat.add_zero]

theorem grid_mod {s i j : Nat} (hj : j < s) : (i * s + j) % s = j := by
  rw [Nat.mul_comm, Nat.mul_add_mod, Nat.mod_eq_of_lt hj]

theorem rd_in {xin : List ℚ} {n : Nat} (hx : xin.length = n) {t : Int}
    (h0 : 0 ≤ t) (h1 : t < (n : Int)) : rd xin t = some (xin.getD t.toNat 0) := by
  have hc : 0 ≤ t ∧ t < (xin.length : Int) := ⟨h0, by rw [hx]; exact h1⟩
  simp only [rd, if_pos hc]

/-- An interior iteration of `Apply` writes the truncated-Laplacian entry at
`i*s + j` (where nothing is actually truncated). -/
theorem interiorBody_spec {s : Nat} {xin : List ℚ} (hx : xin.length = s * s)
    {i j : Nat} (hi1 : 1 ≤ i) (hi2 : i + 1 < s) (hj1 : 1 ≤ j) (hj2 : j + 1 < s)
    (o : List ℚ) :
    interiorBody s xin o i j =
      some (o.set (i * s + j) (laplaceEntry s xin (i * s + j))) := by
  have hs0 : 0 < s := by omega
  have hjs : j < s := by omega
  have hdiv : (i * s + j) / s = i := grid_div hs0 hjs
  have hmod : (i * s + j) % s = j := grid_mod hjs
  have key0 : i * s + j < s * s := grid_lt (by omega) hjs
  have key2 : s ≤ i * s + j := grid_ge j hi1
  have key3 : i * s + j + s < s * s := by
    have h := grid_lt hi2 hjs
    have e : (i + 1) * s + j = i * s + j + s := by ring
    omega
  have key4 : i * s + j + 1 < s * s := by
    have h := grid_lt (show i < s by omega) hj2
    have e : i * s + (j + 1) = i * s + j + 1 := by ring
    omega
  rw [interiorBody,
    rd_in hx (t := ((i * s + j : Nat) : Int) - (s : Int)) (by omega) (by omega),
    rd_in hx (t := ((i * s + j : Nat) : Int) - 1) (by omega) (by omega),
    rd_in hx (t := ((i * s + j : Nat) : Int)) (by omega) (by omega),
    rd_in hx (t := ((i * s + j : Nat) : Int) + 1) (by omega) (by omega),
    rd_in hx (t := ((i * s + j : Nat) : Int) + (s : Int)) (by omega) (by omega)]
  show some _ = some _
  have e1 : (((i * s + j : Nat) : Int) - (s : Int)).toNat = i * s + j - s := by omega
  have e2 : (((i * s + j : Nat) : Int) - 1).toNat = i * s + j - 1 := by omega
  have e3 : (((i * s + j : Nat) : Int)).toNat = i * s + j := by omega
  have e4 : (((i * s + j : Nat) : Int) + 1).toNat = i * s + j + 1 := by omega
  have e5 : (((i * s + j : Nat) : Int) + (s : Int)).toNat = i * s + j + s := by omega
  rw [e1, e2, e3, e4, e5, laplaceEntry, hdiv, hmod,
    if_pos hi1, if_pos hi2, if_pos hj1, if_pos hj2]
  congr 1
  congr 1
  ring

/-- A boundary-row iteration of `Apply` writes the truncated-Laplacian
entries of the top-row point `(0, j)` and of the bottom-row point
`(s-1, j)`. -/
theorem rowBody_spec {s : Nat} {xin : List ℚ} (hs : 2 ≤ s)
    (hx : xin.length = s * s) {j : Nat} (hj1 : 1 ≤ j) (hj2 : j + 1 < s)
    (o : List ℚ) :
    rowBody s xin o j =
      some ((o.set j (laplaceEntry s xin j)).set ((s - 1) * s + j)
        (laplaceEntry s xin ((s - 1) * s + j))) := by
  have hs0 : 0 < s := by omega
  have hjs : j < s := by omega
  have hd1 : j / s = 0 := Nat.div_eq_of_lt hjs
  have hm1 : j % s = j := Nat.mod_eq_of_lt hjs
  have hd2 : ((s - 1) * s + j) / s = s - 1 := grid_div hs0 hjs
  have hm2 : ((s - 1) * s + j) % s = j := grid_mod hjs
  have key1 : j + s < s * s := by
    have h := grid_lt (show 1 < s by omega) hjs
    have e : 1 * s + j = j + s := by ring
    omega
  have key2 : (s - 1) * s + j < s * s := grid_lt (by omega) hjs
  have key3 : s ≤ (s - 1) * s + j := grid_ge j (by omega)
  have key4 : (s - 1) * s + j + 1 < s * s := by
    have h := grid_lt (show s - 1 < s by omega) hj2
    have e : (s - 1) * s + (j + 1) = (s - 1) * s + j + 1 := by ring
    omega
  rw [rowBody]
  simp only []
  rw [rd_in hx (t := ((j : Nat) : Int) - 1) (by omega) (by omega),
    rd_in hx (t := ((j : Nat) : Int)) (by omega) (by omega),
    rd_in hx (t := ((j : Nat) : Int) + 1) (by omega) (by omega),
    rd_in hx (t := ((j : Nat) : Int) + (s : Int)) (by omega) (by omega),
    rd_in hx (t := (((s - 1) * s + j : Nat) : Int) - (s : Int)) (by omega) (by omega),
    rd_in hx (t := (((s - 1) * s + j : Nat) : Int) - 1) (by omega) (by omega),
    rd_in hx (t := (((s - 1) * s + j : Nat) : Int)) (by omega) (by omega),
    rd_in hx (t := (((s - 1) * s + j : Nat) : Int) + 1) (by omega) (by omega)]
  show some _ = some _
  have e1 : (((j : Nat) : Int) - 1).toNat = j - 1 := by omega
  have e2 : (((j : Nat) : Int)).toNat = j := by omega
  have e3 : (((j : Nat) : Int) + 1).toNat = j + 1 := by omega
  have e4 : (((j : Nat) : Int) + (s : Int)).toNat = j + s := by omega
  have f1 : ((((s - 1) * s + j : Nat) : Int) - (s : Int)).toNat =
      (s - 1) * s + j - s := by omega
  have f2 : ((((s - 1) * s + j : Nat) : Int) - 1).toNat = (s - 1) * s + j - 1 := by
    omega
  have f3 : ((((s - 1) * s + j : Nat) : Int)).toNat = (s - 1) * s + j := by omega
  have f4 : ((((s - 1) * s + j : Nat) : Int) + 1).toNat = (s - 1) * s + j + 1 := by
    omega
  rw [e1, e2, e3, e4, f1, f2, f3, f4]
  congr 1
  congr 1
  · congr 1
    rw [laplaceEntry, hd1, hm1, if_neg (by omega), if_pos (by omega),
      if_pos hj1, if_pos hj2]
    ring
  · rw [laplaceEntry, hd2, hm2, if_pos (by omega), if_neg (by omega),
      if_pos hj1, if_pos hj2]
    ring

/-- A boundary-column iteration of `Apply` writes the truncated-Laplacian
entries of the left-column point `(i, 0)` and of the right-column point
`(i, s-1)`. -/
theorem colBody_spec {s : Nat} {xin : List ℚ} (hs : 2 ≤ s)
    (hx : xin.length = s * s) {i : Nat} (hi1 : 1 ≤ i) (hi2 : i + 1 < s)
    (o : List ℚ) :
    colBody s xin o i =
      some ((o.set (i * s) (laplaceEntry s xin (i * s))).set (i * s + (s - 1))
        (laplaceEntry s xin (i * s + (s - 1)))) := by
  have hs0 : 0 < s := by omega
  have hd1 : (i * s) / s = i := Nat.mul_div_cancel i hs0
  have hm1 : (i * s) % s = 0 := Nat.mul_mod_left i s
  have hd2 : (i * s + (s - 1)) / s = i := grid_div hs0 (by omega)
  have hm2 : (i * s + (s - 1)) % s = s - 1 := grid_mod (by omega)
  have key1 : s ≤ i * s := by
    have h := grid_ge 0 hi1 (s := s)
    omega
  have key2 : i * s + s < s * s := by
    have h := grid_lt hi2 hs0
    have e : (i + 1) * s + 0 = i * s + s := by ring
    omega
  have key3 : i * s + 1 < s * s := grid_lt (by omega) (by omega)
  have key4 : i * s + (s - 1) < s * s := grid_lt (by omega) (by omega)
  have key5 : i * s + (s - 1) + s < s * s := by
    have h := grid_lt hi2 (show s - 1 < s by omega)
    have e : (i + 1) * s + (s - 1) = i * s + (s - 1) + s := by ring
    omega
  rw [colBody]
  simp only []
  rw [rd_in hx (t := ((i * s : Nat) : Int) - (s : Int)) (by omega) (by omega),
    rd_in hx (t := ((i * s : Nat) : Int)) (by omega) (by omega),
    rd_in hx (t := ((i * s : Nat) : Int) + 1) (by omega) (by omega),
    rd_in hx (t := ((i * s : Nat) : Int) + (s : Int)) (by omega) (by omega),
    rd_in hx (t := ((i * s + (s - 1) : Nat) : Int) - (s : Int)) (by omega) (by omega),
    rd_in hx (t := ((i * s + (s - 1) : Nat) : Int) - 1) (by omega) (by omega),
    rd_in hx (t := ((i * s + (s - 1) : Nat) : Int)) (by omega) (by omega),
    rd_in hx (t := ((i * s + (s - 1) : Nat) : Int) + (s : Int)) (by omega) (by omega)]
  show some _ = some _
  have e1 : (((i * s : Nat) : Int) - (s : Int)).toNat = i * s - s := by omega
  have e2 : (((i * s : Nat) : Int)).toNat = i * s := by omega
  have e3 : (((i * s : Nat) : Int) + 1).toNat = i * s + 1 := by omega
  have e4 : (((i * s : Nat) : Int) + (s : Int)).toNat = i * s + s := by omega
  have f1 : (((i * s + (s - 1) : Nat) : Int) - (s : Int)).toNat =
      i * s + (s - 1) - s := by omega
  have f2 : (((i * s + (s - 1) : Nat) : Int) - 1).toNat = i * s + (s - 1) - 1 := by
    omega
  have f3 : (((i * s + (s - 1) : Nat) : Int)).toNat = i * s + (s - 1) := by omega
  have f4 : (((i * s + (s - 1) : Nat) : Int) + (s : Int)).toNat =
      i * s + (s - 1) + s := by omega
  rw [e1, e2, e3, e4, f1, f2, f3, f4]
  congr 1
  congr 1
  · congr 1
    rw [laplaceEntry, hd1, hm1, if_pos hi1, if_pos hi2, if_neg (by omega),
      if_pos (by omega)]
    ring
  · rw [laplaceEntry, hd2, hm2, if_pos hi1, if_pos hi2, if_pos (by omega),
      if_neg (by omega)]
    ring

theorem entry_corner00 {s : Nat} (xin : List ℚ) (hs : 2 ≤ s) :
    laplaceEntry s xin 0 =
      4 * xin.getD 0 0 + (-1) * xin.getD 1 0 + (-1) * xin.getD s 0 := by
  rw [laplaceEntry, Nat.zero_div, Nat.zero_mod, if_neg (by omega),
    if_pos (by omega), if_neg (by omega), if_pos (by omega)]
  simp only [Nat.zero_add]
  ring

theorem entry_corner0R {s : Nat} (xin : List ℚ) (hs : 2 ≤ s) :
    laplaceEntry s xin (s - 1) =
      (-1) * xin.getD (s - 1 - 1) 0 + 4 * xin.getD (s - 1) 0 +
        (-1) * xin.getD (s - 1 + s) 0 := by
  rw [laplaceEntry, Nat.div_eq_of_lt (by omega), Nat.mod_eq_of_lt (by omega),
    if_neg (by omega), if_pos (by omega), if_pos (by omega), if_neg (by omega)]
  ring

theorem entry_cornerB0 {s : Nat} (xin : List ℚ) (hs : 2 ≤ s) :
    laplaceEntry s xin ((s - 1) * s) =
      (-1) * xin.getD ((s - 1) * s - s) 0 + 4 * xin.getD ((s - 1) * s) 0 +
        (-1) * xin.getD ((s - 1) * s + 1) 0 := by
  have hs0 : 0 < s := by omega
  rw [laplaceEntry, Nat.mul_div_cancel (s - 1) hs0, Nat.mul_mod_left (s - 1) s,
    if_pos (by omega), if_neg (by omega), if_neg (by omega), if_pos (by omega)]
  ring

theorem entry_cornerBR {s : Nat} (xin : List ℚ) (hs : 2 ≤ s) :
    laplaceEntry s xin ((s - 1) * s + (s - 1)) =
      (-1) * xin.getD ((s - 1) * s + (s - 1) - s) 0 +
        (-1) * xin.getD ((s - 1) * s + (s - 1) - 1) 0 +
        4 * xin.getD ((s - 1) * s + (s - 1)) 0 := by
  have hs0 : 0 < s := by omega
  rw [laplaceEntry, grid_div hs0 (by omega), grid_mod (by omega),
    if_pos (by omega), if_neg (by omega), if_pos (by omega), if_neg (by omega)]
  ring

/-- The corner-point statements of `Apply` write the truncated-Laplacian
entries of the four grid corners. -/
theorem corners_spec {s : Nat} {xin : List ℚ} (hs : 2 ≤ s)
    (hx : xin.length = s * s) (o : List ℚ) :
    corners s xin o =
      some ((((o.set 0 (laplaceEntry s xin 0)).set (s - 1)
        (laplaceEntry s xin (s - 1))).set ((s - 1) * s)
        (laplaceEntry s xin ((s - 1) * s))).set ((s - 1) * s + (s - 1))
        (laplaceEntry s xin ((s - 1) * s + (s - 1)))) := by
  have hs0 : 0 < s := by omega
  have key1 : s < s * s := by
    have h := grid_lt (show 1 < s by omega) hs0
    have e : 1 * s + 0 = s := by ring
    omega
  have key2 : s - 1 + s < s * s := by
    have h := grid_lt (show 1 < s by omega) (show s - 1 < s by omega)
    have e : 1 * s + (s - 1) = s - 1 + s := by omega
    omega
  have key3 : s ≤ (s - 1) * s := by
    have h := grid_ge 0 (show 1 ≤ s - 1 by omega) (s := s)
    omega
  have key4 : (s - 1) * s + 1 < s * s := grid_lt (by omega) (by omega)
  have key5 : (s - 1) * s + (s - 1) < s * s := grid_lt (by omega) (by omega)
  have hd1 : (0 : Nat) / s = 0 := Nat.zero_div s
  have hm1 : (0 : Nat) % s = 0 := Nat.zero_mod s
  have hd2 : (s - 1) / s = 0 := Nat.div_eq_of_lt (by omega)
  have hm2 : (s - 1) % s = s - 1 := Nat.mod_eq_of_lt (by omega)
  have hd3 : ((s - 1) * s) / s = s - 1 := Nat.mul_div_cancel (s - 1) hs0
  have hm3 : ((s - 1) * s) % s = 0 := Nat.mul_mod_left (s - 1) s
  have hd4 : ((s - 1) * s + (s - 1)) / s = s - 1 := grid_div hs0 (by omega)
  have hm4 : ((s - 1) * s + (s - 1)) % s = s - 1 := grid_mod (by omega)
  rw [corners]
  simp only []
  rw [rd_in hx (t := (0 : Int)) (by omega) (by omega),
    rd_in hx (t := (1 : Int)) (by omega) (by omega),
    rd_in hx (t := ((s : Nat) : Int)) (by omega) (by omega),
    rd_in hx (t := ((s - 1 : Nat) : Int) - 1) (by omega) (by omega),
    rd_in hx (t := ((s - 1 : Nat) : Int)) (by omega) (by omega),
    rd_in hx (t := ((s - 1 : Nat) : Int) + (s : Int)) (by omega) (by omega),
    rd_in hx (t := (((s - 1) * s : Nat) : Int) - (s : Int)) (by omega) (by omega),
    rd_in hx (t := (((s - 1) * s : Nat) : Int)) (by omega) (by omega),
    rd_in hx (t := (((s - 1) * s : Nat) : Int) + 1) (by omega) (by omega),
    rd_in hx (t := (((s - 1) * s + (s - 1) : Nat) : Int) - (s : Int)) (by omega)
      (by omega),
    rd_in hx (t := (((s - 1) * s + (s - 1) : Nat) : Int) - 1) (by omega) (by omega),
    rd_in hx (t := (((s - 1) * s + (s - 1) : Nat) : Int)) (by omega) (by omega)]
  show some _ = some _
  have e0 : ((0 : Int)).toNat = 0 := rfl
  have e1 : ((1 : Int)).toNat = 1 := rfl
  have e2 : (((s : Nat) : Int)).toNat = s := by omega
  have e3 : (((s - 1 : Nat) : Int) - 1).toNat = s - 1 - 1 := by omega
  have e4 : (((s - 1 : Nat) : Int)).toNat = s - 1 := by omega
  have e5 : (((s - 1 : Nat) : Int) + (s : Int)).toNat = s - 1 + s := by omega
  have f1 : ((((s - 1) * s : Nat) : Int) - (s : Int)).toNat = (s - 1) * s - s := by
    omega
  have f2 : ((((s - 1) * s : Nat) : Int)).toNat = (s - 1) * s := by omega
  have f3 : ((((s - 1) * s : Nat) : Int) + 1).toNat = (s - 1) * s + 1 := by omega
  have g1 : ((((s - 1) * s + (s - 1) : Nat) : Int) - (s : Int)).toNat =
      (s - 1) * s + (s - 1) - s := by omega
  have g2 : ((((s - 1) * s + (s - 1) : Nat) : Int) - 1).toNat =
      (s - 1) * s + (s - 1) - 1 := by omega
  have g3 : ((((s - 1) * s + (s - 1) : Nat) : Int)).toNat =
      (s - 1) * s + (s - 1) := by omega
  rw [e0, e1, e2, e3, e4, e5, f1, f2, f3, g1, g2, g3,
    entry_corner00 xin hs, entry_corner0R xin hs, entry_cornerB0 xin hs,
    entry_cornerBR xin hs]

/-- Proof-layer description of one interior row of writes of `Apply`. -/
def interiorPure (s : Nat) (xin o : List ℚ) (i : Nat) : List ℚ :=
  (List.range' 1 (s - 2)).foldl
    (fun o2 j => o2.set (i * s + j) (laplaceEntry s xin (i * s + j))) o

/-- Proof-layer description of one boundary-row iteration of `Apply`. -/
def rowPure (s : Nat) (xin o : List ℚ) (j : Nat) : List ℚ :=
  (o.set j (laplaceEntry s xin j)).set ((s - 1) * s + j)
    (laplaceEntry s xin ((s - 1) * s + j))

/-- Proof-layer description of one boundary-column iteration of `Apply`. -/
def colPure (s : Nat) (xin o : List ℚ) (i : Nat) : List ℚ :=
  (o.set (i * s) (laplaceEntry s xin (i * s))).set (i * s + (s - 1))
    (laplaceEntry s xin (i * s + (s - 1)))

/-- Proof-layer description of the corner writes of `Apply`. -/
def cornersPure (s : Nat) (xin o : List ℚ) : List ℚ :=
  (((o.set 0 (laplaceEntry s xin 0)).set (s - 1)
    (laplaceEntry s xin (s - 1))).set ((s - 1) * s)
    (laplaceEntry s xin ((s - 1) * s))).set ((s - 1) * s + (s - 1))
    (laplaceEntry s xin ((s - 1) * s + (s - 1)))

/-- Write-set description of the inner interior loop at a fixed row `i`. -/
theorem interiorPure_writes (s : Nat) (xin : List ℚ) (i : Nat) :
    ∀ o : List ℚ,
      (interiorPure s xin o i).length = o.length ∧
      (∀ k, (∀ j ∈ List.range' 1 (s - 2), ¬ k = i * s + j) →
        (interiorPure s xin o i).getD k 0 = o.getD k 0) ∧
      (∀ k j, j ∈ List.range' 1 (s - 2) → k = i * s + j →
        (∀ j2 ∈ List.range' 1 (s - 2), k = i * s + j2 →
          laplaceEntry s xin k = laplaceEntry s xin k) →
        k < o.length → (interiorPure s xin o i).getD k 0 = laplaceEntry s xin k) := by
  intro o
  exact foldl_writes
    (fun o2 j => o2.set (i * s + j) (laplaceEntry s xin (i * s + j)))
    (fun j k => k = i * s + j) (fun _ k => laplaceEntry s xin k)
    (List.range' 1 (s - 2))
    (fun o2 j _ => List.length_set o2 _ _)
    (fun o2 j k _ hc hk => by
      subst hc; exact getD_set_eq o2 _ hk _)
    (fun o2 j k _ hc => getD_set_ne o2 (fun h => hc h.symm) _)
    o

/-- Write-set description of the whole interior double loop of `Apply`. -/
theorem interiorStage_writes (s : Nat) (xin : List ℚ) :
    ∀ o : List ℚ,
      ((List.range' 1 (s - 2)).foldl (interiorPure s xin) o).length = o.length ∧
      (∀ k, (∀ i ∈ List.range' 1 (s - 2),
          ¬ ∃ j ∈ List.range' 1 (s - 2), k = i * s + j) →
        ((List.range' 1 (s - 2)).foldl (interiorPure s xin) o).getD k 0 =
          o.getD k 0) ∧
      (∀ k i, i ∈ List.range' 1 (s - 2) →
        (∃ j ∈ List.range' 1 (s - 2), k = i * s + j) →
        (∀ i2 ∈ List.range' 1 (s - 2),
          (∃ j ∈ List.range' 1 (s - 2), k = i2 * s + j) →
          laplaceEntry s xin k = laplaceEntry s xin k) →
        k < o.length →
        ((List.range' 1 (s - 2)).foldl (interiorPure s xin) o).getD k 0 =
          laplaceEntry s xin k) := by
  intro o
  exact foldl_writes (interiorPure s xin)
    (fun i k => ∃ j ∈ List.range' 1 (s - 2), k = i * s + j)
    (fun _ k => laplaceEntry s xin k)
    (List.range' 1 (s - 2))
    (fun o2 i _ => (interiorPure_writes s xin i o2).1)
    (fun o2 i k _ hc hk => by
      obtain ⟨j, hj, hkj⟩ := hc
      exact (interiorPure_writes s xin i o2).2.2 k j hj hkj
        (fun _ _ _ => rfl) hk)
    (fun o2 i k _ hc => by
      refine (interiorPure_writes s xin i o2).2.1 k ?_
      intro j hj hkj
      exact hc ⟨j, hj, hkj⟩)
    o

/-- Write-set description of the boundary-row loop of `Apply`. -/
theorem rowStage_writes {s : Nat} (hs : 2 ≤ s) (xin : List ℚ) :
    ∀ o : List ℚ,
      ((List.range' 1 (s - 2)).foldl (rowPure s xin) o).length = o.length ∧
      (∀ k, (∀ j ∈ List.range' 1 (s - 2), ¬ (k = j ∨ k = (s - 1) * s + j)) →
        ((List.range' 1 (s - 2)).foldl (rowPure s xin) o).getD k 0 =
          o.getD k 0) ∧
      (∀ k j, j ∈ List.range' 1 (s - 2) → (k = j ∨ k = (s - 1) * s + j) →
        (∀ j2 ∈ List.range' 1 (s - 2), (k = j2 ∨ k = (s - 1) * s + j2) →
          laplaceEntry s xin k = laplaceEntry s xin k) →
        k < o.length →
        ((List.range' 1 (s - 2)).foldl (rowPure s xin) o).getD k 0 =
          laplaceEntry s xin k) := by
  have hpos : 0 < (s - 1) * s := Nat.mul_pos (by omega) (by omega)
  intro o
  refine foldl_writes (rowPure s xin)
    (fun j k => k = j ∨ k = (s - 1) * s + j)
    (fun _ k => laplaceEntry s xin k)
    (List.range' 1 (s - 2))
    (fun o2 j _ => by
      rw [rowPure, List.length_set, List.length_set])
    (fun o2 j k _ hc hk => ?_)
    (fun o2 j k _ hc => ?_)
    o
  · rcases hc with rfl | rfl
    · rw [rowPure, getD_set_ne _ (by omega),
        getD_set_eq o2 _ hk]
    · rw [rowPure, getD_set_eq _ _ (by rw [List.length_set]; exact hk)]
  · rw [rowPure, getD_set_ne _ (fun h => hc (Or.inr h.symm)),
      getD_set_ne _ (fun h => hc (Or.inl h.symm))]

/-- Write-set description of the boundary-column loop of `Apply`. -/
theorem colStage_writes {s : Nat} (hs : 2 ≤ s) (xin : List ℚ) :
    ∀ o : List ℚ,
      ((List.range' 1 (s - 2)).foldl (colPure s xin) o).length = o.length ∧
      (∀ k, (∀ i ∈ List.range' 1 (s - 2), ¬ (k = i * s ∨ k = i * s + (s - 1))) →
        ((List.range' 1 (s - 2)).foldl (colPure s xin) o).getD k 0 =
          o.getD k 0) ∧
      (∀ k i, i ∈ List.range' 1 (s - 2) → (k = i * s ∨ k = i * s + (s - 1)) →
        (∀ i2 ∈ List.range' 1 (s - 2), (k = i2 * s ∨ k = i2 * s + (s - 1)) →
          laplaceEntry s xin k = laplaceEntry s xin k) →
        k < o.length →
        ((List.range' 1 (s - 2)).foldl (colPure s xin) o).getD k 0 =
          laplaceEntry s xin k) := by
  intro o
  refine foldl_writes (colPure s xin)
    (fun i k => k = i * s ∨ k = i * s + (s - 1))
    (fun _ k => laplaceEntry s xin k)
    (List.range' 1 (s - 2))
    (fun o2 i _ => by
      rw [colPure, List.length_set, List.length_set])
    (fun o2 i k _ hc hk => ?_)
    (fun o2 i k _ hc => ?_)
    o
  · rcases hc with rfl | rfl
    · rw [colPure, getD_set_ne _ (by omega),
        getD_set_eq o2 _ hk]
    · rw [colPure, getD_set_eq _ _ (by rw [List.length_set]; exact hk)]
  · rw [colPure, getD_set_ne _ (fun h => hc (Or.inr h.symm)),
      getD_set_ne _ (fun h => hc (Or.inl h.symm))]

/-- Write-set description of the corner writes of `Apply`. -/
theorem cornersPure_writes {s : Nat} (hs : 2 ≤ s) (xin : List ℚ) (o : List ℚ) :
    (cornersPure s xin o).length = o.length ∧
    (∀ k, ¬ (k = 0 ∨ k = s - 1 ∨ k = (s - 1) * s ∨ k = (s - 1) * s + (s - 1)) →
      (cornersPure s xin o).getD k 0 = o.getD k 0) ∧
    (∀ k, (k = 0 ∨ k = s - 1 ∨ k = (s - 1) * s ∨ k = (s - 1) * s + (s - 1)) →
      k < o.length → (cornersPure s xin o).getD k 0 = laplaceEntry s xin k) := by
  have hq : (s - 1) * 2 ≤ (s - 1) * s := Nat.mul_le_mul_left (s - 1) hs
  have h0R : (0 : Nat) ≠ s - 1 := by omega
  have h0B : (0 : Nat) ≠ (s - 1) * s := by omega
  have h0C : (0 : Nat) ≠ (s - 1) * s + (s - 1) := by omega
  have hRB : s - 1 ≠ (s - 1) * s := by omega
  have hRC : s - 1 ≠ (s - 1) * s + (s - 1) := by omega
  have hBC : (s - 1) * s ≠ (s - 1) * s + (s - 1) := by omega
  refine ⟨by rw [cornersPure, List.length_set, List.length_set,
    List.length_set, List.length_set], ?_, ?_⟩
  · intro k hk
    push_neg at hk
    rw [cornersPure, getD_set_ne _ (fun h => hk.2.2.2 h.symm),
      getD_set_ne _ (fun h => hk.2.2.1 h.symm),
      getD_set_ne _ (fun h => hk.2.1 h.symm),
      getD_set_ne _ (fun h => hk.1 h.symm)]
  · intro k hk hklen
    have hlen4 : k < ((o.set 0 (laplaceEntry s xin 0)).set (s - 1)
        (laplaceEntry s xin (s - 1))).length := by
      rw [List.length_set, List.length_set]; exact hklen
    rcases hk with rfl | rfl | rfl | rfl
    · rw [cornersPure, getD_set_ne _ (fun h => h0C h.symm),
        getD_set_ne _ (fun h => h0B h.symm),
        getD_set_ne _ (fun h => h0R h.symm),
        getD_set_eq o _ hklen]
    · rw [cornersPure, getD_set_ne _ (fun h => hRC h.symm),
        getD_set_ne _ (fun h => hRB h.symm),
        getD_set_eq _ _ (by rw [List.length_set]; exact hklen)]
    · rw [cornersPure, getD_set_ne _ (fun h => hBC h.symm),
        getD_set_eq _ _ (by
          rw [List.length_set, List.length_set]; exact hklen)]
    · rw [cornersPure, getD_set_eq _ _ (by
        rw [List.length_set, List.length_set, List.length_set]; exact hklen)]

/-- Every grid point of the `s × s` grid is written by the interior loop, a
boundary-layer loop, or a corner statement. -/
theorem grid_coverage {s : Nat} (hs : 2 ≤ s) {k : Nat} (hk : k < s * s) :
    (k = 0 ∨ k = s - 1 ∨ k = (s - 1) * s ∨ k = (s - 1) * s + (s - 1)) ∨
    (∃ i ∈ List.range' 1 (s - 2), k = i * s ∨ k = i * s + (s - 1)) ∨
    (∃ j ∈ List.range' 1 (s - 2), k = j ∨ k = (s - 1) * s + j) ∨
    (∃ i ∈ List.range' 1 (s - 2), ∃ j ∈ List.range' 1 (s - 2),
      k = i * s + j) := by
  have hs0 : 0 < s := by omega
  obtain ⟨i, j, hkm, hj, hi⟩ : ∃ i j, k = i * s + j ∧ j < s ∧ i < s := by
    refine ⟨k / s, k % s, ?_, Nat.mod_lt k hs0, ?_⟩
    · have hkd : s * (k / s) + k % s = k := Nat.div_add_mod k s
      rw [Nat.mul_comm] at hkd
      omega
    · rcases Nat.lt_or_ge (k / s) s with h | h
      · exact h
      · exfalso
        have h1 : s * s ≤ s * (k / s) := Nat.mul_le_mul_left s h
        have hkd : s * (k / s) + k % s = k := Nat.div_add_mod k s
        omega
  have hmem : ∀ m : Nat, 1 ≤ m → m < s - 1 → m ∈ List.range' 1 (s - 2) := by
    intro m h1 h2
    rw [List.mem_range'_1]
    omega
  subst hkm
  rcases show i = 0 ∨ i = s - 1 ∨ (1 ≤ i ∧ i < s - 1) by omega
    with rfl | rfl | hI <;>
    rcases show j = 0 ∨ j = s - 1 ∨ (1 ≤ j ∧ j < s - 1) by omega
      with rfl | rfl | hJ
  · exact Or.inl (Or.inl (by ring_nf))
  · exact Or.inl (Or.inr (Or.inl (by ring_nf)))
  · exact Or.inr (Or.inr (Or.inl ⟨j, hmem _ hJ.1 hJ.2,
      Or.inl (by ring_nf)⟩))
  · exact Or.inl (Or.inr (Or.inr (Or.inl rfl)))
  · exact Or.inl (Or.inr (Or.inr (Or.inr rfl)))
  · exact Or.inr (Or.inr (Or.inl ⟨j, hmem _ hJ.1 hJ.2, Or.inr rfl⟩))
  · exact Or.inr (Or.inl ⟨i, hmem _ hI.1 hI.2, Or.inl rfl⟩)
  · exact Or.inr (Or.inl ⟨i, hmem _ hI.1 hI.2, Or.inr rfl⟩)
  · exact Or.inr (Or.inr (Or.inr ⟨i, hmem _ hI.1 hI.2, j,
      hmem _ hJ.1 hJ.2, rfl⟩))

theorem laplaceSpec_length (s : Nat) (xin : List ℚ) :
    (laplaceSpec s xin).length = s * s := by
  rw [laplaceSpec, List.length_map, List.length_range]

theorem laplaceSpec_getD {s : Nat} (xin : List ℚ) {k : Nat} (hk : k < s * s) :
    (laplaceSpec s xin).getD k 0 = laplaceEntry s xin k := by
  rw [laplaceSpec, List.getD_eq_getElem?_getD, List.getElem?_map,
    List.getElem?_range hk]
  rfl

/-- `HostStencilLaplace2D::Apply` computes the truncated 5-point Laplacian on
every grid of side at least 2. -/
theorem Apply_eq_laplaceSpec {s : Nat} (hs : 2 ≤ s) {xin out : List ℚ}
    (hx : xin.length = s * s) (ho : out.length = s * s) :
    Apply s xin out = some (laplaceSpec s xin) := by
  have hs0 : 0 < s := by omega
  have hbnd : ∀ m : Nat, m ∈ List.range' 1 (s - 2) → 1 ≤ m ∧ m + 1 < s := by
    intro m hm
    rw [List.mem_range'_1] at hm
    omega
  rw [Apply, if_pos hs0, if_pos ⟨hx, ho⟩]
  have hinner : ∀ i, i ∈ List.range' 1 (s - 2) → ∀ o : List ℚ,
      (List.range' 1 (s - 2)).foldlM (fun o2 j => interiorBody s xin o2 i j) o =
        some (interiorPure s xin o i) := by
    intro i hi o
    exact foldlM_eq_foldl _ _ (fun _ => True) _
      (fun _ _ _ _ => trivial)
      (fun o2 j hj _ => interiorBody_spec hx (hbnd i hi).1 (hbnd i hi).2
        (hbnd j hj).1 (hbnd j hj).2 o2)
      o trivial
  have houter : (List.range' 1 (s - 2)).foldlM
      (fun o i => (List.range' 1 (s - 2)).foldlM
        (fun o2 j => interiorBody s xin o2 i j) o) out =
      some ((List.range' 1 (s - 2)).foldl (interiorPure s xin) out) :=
    foldlM_eq_foldl _ _ (fun _ => True) _
      (fun _ _ _ _ => trivial)
      (fun o i hi _ => hinner i hi o)
      out trivial
  have hrows : ∀ o : List ℚ,
      (List.range' 1 (s - 2)).foldlM (fun o j => rowBody s xin o j) o =
        some ((List.range' 1 (s - 2)).foldl (rowPure s xin) o) := by
    intro o
    exact foldlM_eq_foldl _ _ (fun _ => True) _
      (fun _ _ _ _ => trivial)
      (fun o2 j hj _ => by
        rw [rowBody_spec hs hx (hbnd j hj).1 (hbnd j hj).2 o2, rowPure])
      o trivial
  have hcols : ∀ o : List ℚ,
      (List.range' 1 (s - 2)).foldlM (fun o i => colBody s xin o i) o =
        some ((List.range' 1 (s - 2)).foldl (colPure s xin) o) := by
    intro o
    exact foldlM_eq_foldl _ _ (fun _ => True) _
      (fun _ _ _ _ => trivial)
      (fun o2 i hi _ => by
        rw [colBody_spec hs hx (hbnd i hi).1 (hbnd i hi).2 o2, colPure])
      o trivial
  rw [houter]
  show ((List.range' 1 (s - 2)).foldlM (fun o j => rowBody s xin o j)
    ((List.range' 1 (s - 2)).foldl (interiorPure s xin) out)).bind _ = _
  rw [hrows]
  show ((List.range' 1 (s - 2)).foldlM (fun o i => colBody s xin o i) _).bind _ = _
  rw [hcols]
  show corners s xin _ = _
  set o1 := (List.range' 1 (s - 2)).foldl (interiorPure s xin) out with ho1
  set o2 := (List.range' 1 (s - 2)).foldl (rowPure s xin) o1 with ho2
  set o3 := (List.range' 1 (s - 2)).foldl (colPure s xin) o2 with ho3
  rw [corners_spec hs hx o3]
  have hlen1 : o1.length = s * s := by
    rw [ho1, (interiorStage_writes s xin out).1, ho]
  have hlen2 : o2.length = s * s := by
    rw [ho2, (rowStage_writes hs xin o1).1, hlen1]
  have hlen3 : o3.length = s * s := by
    rw [ho3, (colStage_writes hs xin o2).1, hlen2]
  have hfin : cornersPure s xin o3 =
      (((o3.set 0 (laplaceEntry s xin 0)).set (s - 1)
        (laplaceEntry s xin (s - 1))).set ((s - 1) * s)
        (laplaceEntry s xin ((s - 1) * s))).set ((s - 1) * s + (s - 1))
        (laplaceEntry s xin ((s - 1) * s + (s - 1))) := rfl
  rw [← hfin]
  congr 1
  have hlenF : (cornersPure s xin o3).length = s * s := by
    rw [(cornersPure_writes hs xin o3).1, hlen3]
  have hpoint : ∀ k, k < s * s →
      (cornersPure s xin o3).getD k 0 = laplaceEntry s xin k := by
    intro k hk
    by_cases hcorn : k = 0 ∨ k = s - 1 ∨ k = (s - 1) * s ∨
        k = (s - 1) * s + (s - 1)
    · exact (cornersPure_writes hs xin o3).2.2 k hcorn (by omega)
    · rw [(cornersPure_writes hs xin o3).2.1 k hcorn]
      by_cases hcol : ∃ i ∈ List.range' 1 (s - 2), k = i * s ∨ k = i * s + (s - 1)
      · obtain ⟨i, hi, hki⟩ := hcol
        exact (colStage_writes hs xin o2).2.2 k i hi hki
          (fun _ _ _ => rfl) (by omega)
      · rw [(colStage_writes hs xin o2).2.1 k (fun i hi h => hcol ⟨i, hi, h⟩)]
        by_cases hrow : ∃ j ∈ List.range' 1 (s - 2), k = j ∨ k = (s - 1) * s + j
        · obtain ⟨j, hj, hkj⟩ := hrow
          exact (rowStage_writes hs xin o1).2.2 k j hj hkj
            (fun _ _ _ => rfl) (by omega)
        · rw [(rowStage_writes hs xin o1).2.1 k
            (fun j hj h => hrow ⟨j, hj, h⟩)]
          by_cases hint : ∃ i ∈ List.range' 1 (s - 2),
              ∃ j ∈ List.range' 1 (s - 2), k = i * s + j
          · obtain ⟨i, hi, j, hj, hkij⟩ := hint
            exact (interiorStage_writes s xin out).2.2 k i hi ⟨j, hj, hkij⟩
              (fun _ _ _ => rfl) (by omega)
          · exfalso
            rcases grid_coverage hs hk with h | h | h | h
            · exact hcorn h
            · exact hcol h
            · exact hrow h
            · exact hint h
  refine List.ext_get (by rw [hlenF, laplaceSpec_length]) ?_
  intro n h1 h2
  rw [← getD_of_lt _ n h1, ← getD_of_lt _ n h2,
    hpoint n (by rw [hlenF] at h1; exact h1),
    laplaceSpec_getD xin (by rw [hlenF] at h1; exact h1)]

end Laplace2D

namespace HIPVec

/-- State of a `HIPAcceleratorVector<double>` (hip_vector.cpp): the device
data buffer `vec_` and the index-subset data `index_array_` /
`index_buffer_`. `size_` and `index_size_` are maintained in the source in
lockstep with the corresponding allocations (the buffer is non-null iff the
size is positive), so they are modelled as the lengths of the lists. The
transient `host_buffer_`/`device_buffer_` reduction staging buffers are not
modelled. Element values are exact rationals; device pointers to `int` hold
integers. -/
structure HIPAcceleratorVector where
  vec_ : List ℚ
  index_array_ : List Int
  index_buffer_ : List ℚ
deriving DecidableEq

/-- `get_size()` of the vector. -/
def get_size (v : HIPAcceleratorVector) : Nat := v.vec_.length

/-- `index_size_` of the vector. -/
def index_size (v : HIPAcceleratorVector) : Nat := v.index_array_.length

/-- `HIPAcceleratorVector::Clear()`: frees the data buffer when the size is
positive, then frees the index data when the index size is positive. -/
def Clear (v : HIPAcceleratorVector) : HIPAcceleratorVector :=
  let v1 := if 0 < get_size v then { v with vec_ := ([] : List ℚ) } else v
  if 0 < index_size v1 then
    { v1 with index_array_ := ([] : List Int), index_buffer_ := ([] : List ℚ) }
  else v1

/-- `HIPAcceleratorVector::Allocate(n)`: asserts `n >= 0` (fatal otherwise),
clears the current state when the size is positive, and for `n > 0` allocates
the buffer (`allocate_hip`) and zeroes it (`set_to_zero_hip`), setting
`size_ = n`. -/
def Allocate (v : HIPAcceleratorVector) (n : Int) : Option HIPAcceleratorVector :=
  if 0 ≤ n then
    let v1 := if 0 < get_size v then Clear v else v
    if 0 < n then
      some { v1 with vec_ := List.replicate n.toNat 0 }
    else some v1
  else none

/-- `HIPAcceleratorVector::CopyFrom(src)`, HIP-to-HIP branch. When `this` is
empty it is allocated to the size of `src` and, after the
`index_size_ == 0` assertion, the index metadata of `src` is propagated
(`index_size_` plus freshly `allocate_hip`-ed `index_array_` and
`index_buffer_`, modelled as zero-filled storage). The entry assertions then
require equal sizes and equal index sizes. `same` models the
`this == hip_cast_vec` pointer comparison (object identity is not part of the
state); when the objects differ and the size is positive, `vec_` and
`index_array_` are copied with `hipMemcpy`. -/
def CopyFrom (this src : HIPAcceleratorVector) (same : Bool) :
    Option HIPAcceleratorVector :=
  (if get_size this = 0 then
    (Allocate this (get_size src : Int)).bind fun ta =>
      if index_size ta = 0 then
        if 0 < index_size src then
          some { ta with
            index_array_ := List.replicate (index_size src) 0,
            index_buffer_ := List.replicate (index_size src) 0 }
        else some ta
      else none
  else some this).bind fun t1 =>
  if get_size src = get_size t1 ∧ index_size src = index_size t1 then
    if same = false then
      if 0 < get_size t1 then
        some { t1 with vec_ := src.vec_, index_array_ := src.index_array_ }
      else some t1
    else some t1
  else none

/-- `HIPAcceleratorVector::CopyTo(dst)`, HIP-to-HIP branch; the exact mirror
of `CopyFrom` with `this` as the source. Returns the final state of `dst`. -/
def CopyTo (this dst : HIPAcceleratorVector) (same : Bool) :
    Option HIPAcceleratorVector :=
  (if get_size dst = 0 then
    (Allocate dst (get_size this : Int)).bind fun da =>
      if index_size da = 0 then
        if 0 < index_size this then
          some { da with
            index_array_ := List.replicate (index_size this) 0,
            index_buffer_ := List.replicate (index_size this) 0 }
        else some da
      else none
  else some dst).bind fun d1 =>
  if get_size d1 = get_size this ∧ index_size d1 = index_size this then
    if same = false then
      if 0 < get_size this then
        some { d1 with vec_ := this.vec_, index_array_ := this.index_array_ }
      else some d1
    else some d1
  else none

/-- `HIPAcceleratorVector::CopyFromAsync(src)`, HIP-to-HIP branch. The body
is identical to the one of `CopyFrom` (the source even issues plain
`hipMemcpy` transfers here, not `hipMemcpyAsync`). -/
def CopyFromAsync (this src : HIPAcceleratorVector) (same : Bool) :
    Option HIPAcceleratorVector :=
  (if get_size this = 0 then
    (Allocate this (get_size src : Int)).bind fun ta =>
      if index_size ta = 0 then
        if 0 < index_size src then
          some { ta with
            index_array_ := List.replicate (index_size src) 0,
            index_buffer_ := List.replicate (index_size src) 0 }
        else some ta
      else none
  else some this).bind fun t1 =>
  if get_size src = get_size t1 ∧ index_size src = index_size t1 then
    if same = false then
      if 0 < get_size t1 then
        some { t1 with vec_ := src.vec_, index_array_ := src.index_array_ }
      else some t1
    else some t1
  else none

/-- `HIPAcceleratorVector::CopyToAsync(dst)`, HIP-to-HIP branch; body
identical to `CopyTo` (plain `hipMemcpy` transfers in the source). -/
def CopyToAsync (this dst : HIPAcceleratorVector) (same : Bool) :
    Option HIPAcceleratorVector :=
  (if get_size dst = 0 then
    (Allocate dst (get_size this : Int)).bind fun da =>
      if index_size da = 0 then
        if 0 < index_size this then
          some { da with
            index_array_ := List.replicate (index_size this) 0,
            index_buffer_ := List.replicate (index_size this) 0 }
        else some da
      else none
  else some dst).bind fun d1 =>
  if get_size d1 = get_size this ∧ index_size d1 = index_size this then
    if same = false then
      if 0 < get_size this then
        some { d1 with vec_ := this.vec_, index_array_ := this.index_array_ }
      else some d1
    else some d1
  else none

/-- Modelled from the spec: the rocBLAS axpy collaborator (`hipblasTaxpy`,
whose wrapper is not part of the studied sources) computes
`this += alpha * x` elementwise. -/
def axpyKernel (alpha : ℚ) (x this : List ℚ) : List ℚ :=
  List.zipWith (fun t xv => t + alpha * xv) this x

/-- Modelled from the spec: `kernel_scaleadd` computes
`this = alpha * this + x` elementwise. -/
def scaleaddKernel (alpha : ℚ) (x this : List ℚ) : List ℚ :=
  List.zipWith (fun t xv => alpha * t + xv) this x

/-- Modelled from the spec: `kernel_scaleaddscale` computes
`this = alpha * this + beta * x` elementwise. -/
def scaleaddscaleKernel (alpha beta : ℚ) (x this : List ℚ) : List ℚ :=
  List.zipWith (fun t xv => alpha * t + beta * xv) this x

/-- Modelled from the spec: `kernel_scaleadd2` computes
`this = alpha * this + beta * x + gamma * y` elementwise. -/
def scaleadd2Kernel (alpha beta gamma : ℚ) (x y this : List ℚ) : List ℚ :=
  List.zipWith (fun p yv => p + gamma * yv)
    (List.zipWith (fun t xv => alpha * t + beta * xv) this x) y

/-- Modelled from the spec: `kernel_pointwisemult` computes
`this = this * x` elementwise. -/
def pointwisemultKernel (x this : List ℚ) : List ℚ :=
  List.zipWith (fun t xv => t * xv) this x

/-- Modelled from the spec: the rocBLAS dot collaborator returns the sum of
elementwise products (no conjugation is involved over the reals). -/
def dotKernel (a b : List ℚ) : ℚ :=
  (List.zipWith (fun t xv => t * xv) a b).sum

/-- `HIPAcceleratorVector::AddScale(x, alpha)`: inside the `size > 0` guard,
asserts equal sizes (fatal otherwise) and calls the axpy collaborator; an
empty vector skips the whole body. -/
def AddScale (this x : HIPAcceleratorVector) (alpha : ℚ) :
    Option HIPAcceleratorVector :=
  if 0 < get_size this then
    if get_size this = get_size x then
      some { this with vec_ := axpyKernel alpha x.vec_ this.vec_ }
    else none
  else some this

/-- `HIPAcceleratorVector::ScaleAdd(alpha, x)`: same guard/assert shape as
`AddScale`, with the `kernel_scaleadd` device kernel. -/
def ScaleAdd (this : HIPAcceleratorVector) (alpha : ℚ)
    (x : HIPAcceleratorVector) : Option HIPAcceleratorVector :=
  if 0 < get_size this then
    if get_size this = get_size x then
      some { this with vec_ := scaleaddKernel alpha x.vec_ this.vec_ }
    else none
  else some this

/-- `HIPAcceleratorVector::ScaleAddScale(alpha, x, beta)` (the overload
without offsets). -/
def ScaleAddScale (this : HIPAcceleratorVector) (alpha : ℚ)
    (x : HIPAcceleratorVector) (beta : ℚ) : Option HIPAcceleratorVector :=
  if 0 < get_size this then
    if get_size this = get_size x then
      some { this with vec_ := scaleaddscaleKernel alpha beta x.vec_ this.vec_ }
    else none
  else some this

/-- `HIPAcceleratorVector::ScaleAdd2(alpha, x, beta, y, gamma)`: asserts both
operand sizes inside the `size > 0` guard. -/
def ScaleAdd2 (this : HIPAcceleratorVector) (alpha : ℚ)
    (x : HIPAcceleratorVector) (beta : ℚ) (y : HIPAcceleratorVector)
    (gamma : ℚ) : Option HIPAcceleratorVector :=
  if 0 < get_size this then
    if get_size this = get_size x ∧ get_size this = get_size y then
      some { this with vec_ := scaleadd2Kernel alpha beta gamma x.vec_ y.vec_ this.vec_ }
    else none
  else some this

/-- `HIPAcceleratorVector::PointWiseMult(x)` (single-operand overload). -/
def PointWiseMult (this x : HIPAcceleratorVector) :
    Option HIPAcceleratorVector :=
  if 0 < get_size this then
    if get_size this = get_size x then
      some { this with vec_ := pointwisemultKernel x.vec_ this.vec_ }
    else none
  else some this

/-- `HIPAcceleratorVector::Dot(x)`: the size assertion sits before the
`size > 0` guard, so it fires even for an empty vector; the result is 0 when
the size is 0. -/
def Dot (this x : HIPAcceleratorVector) : Option ℚ :=
  if get_size this = get_size x then
    some (if 0 < get_size this then dotKernel this.vec_ x.vec_ else 0)
  else none

/-- `HIPAcceleratorVector::DotNonConj(x)`: identical control flow to `Dot`;
over the reals the conjugated and unconjugated dot products coincide. -/
def DotNonConj (this x : HIPAcceleratorVector) : Option ℚ :=
  if get_size this = get_size x then
    some (if 0 < get_size this then dotKernel this.vec_ x.vec_ else 0)
  else none

/-- Modelled from the spec: the rocBLAS index-of-max collaborator
(`hipblasTamax`, whose wrapper is not part of the studied sources) returns
the index of the largest-magnitude element (first occurrence on ties). -/
def amaxIndex (l : List ℚ) : Nat :=
  (List.range l.length).foldl
    (fun best t => if |l.getD best 0| < |l.getD t 0| then t else best) 0

/-- `HIPAcceleratorVector::Amax(value)`: starts from `index = 0`, `value = 0`;
for a positive size queries the index-of-max collaborator and loads the
element at that index; finally stores `rocalution_abs(value)` and returns the
index. The returned pair is `(index, value)`. -/
def Amax (this : HIPAcceleratorVector) : Nat × ℚ :=
  let index : Nat := if 0 < get_size this then amaxIndex this.vec_ else 0
  let value : ℚ := if 0 < get_size this then this.vec_.getD index 0 else 0
  (index, |value|)

/-- Modelled from the spec: `kernel_permute` scatters
`out[ perm[i] ] = src[i]` for every `i < size` (the comment in the source);
a permutation entry outside the buffer is an out-of-bounds device write,
modelled as failure. -/
def kernel_permute (size : Nat) (perm : List Int) (src out : List ℚ) :
    Option (List ℚ) :=
  (List.range size).foldlM
    (fun o i =>
      if 0 ≤ perm.getD i 0 ∧ perm.getD i 0 < (o.length : Int) then
        some (o.set (perm.getD i 0).toNat (src.getD i 0))
      else none) out

/-- Modelled from the spec: `kernel_permute_backward` gathers
`out[i] = src[ perm[i] ]` for every `i < size`; a permutation entry outside
the source buffer is an out-of-bounds device read, modelled as failure. -/
def kernel_permute_backward (size : Nat) (perm : List Int) (src out : List ℚ) :
    Option (List ℚ) :=
  (List.range size).foldlM
    (fun o i =>
      if 0 ≤ perm.getD i 0 ∧ perm.getD i 0 < (src.length : Int) then
        some (o.set i (src.getD (perm.getD i 0).toNat 0))
      else none) out

/-- `HIPAcceleratorVector::Permute(permutation)`: inside the `size > 0`
guard, asserts equal sizes, builds a temporary vector with
`Allocate` + `CopyFrom(*this)` (a freshly constructed vector has empty
buffers), and scatters through `kernel_permute` into `vec_`. -/
def Permute (this : HIPAcceleratorVector) (perm : List Int) :
    Option HIPAcceleratorVector :=
  if 0 < get_size this then
    if get_size this = perm.length then
      (Allocate ⟨[], [], []⟩ (get_size this : Int)).bind fun tmp0 =>
        (CopyFrom tmp0 this false).bind fun tmp =>
          (kernel_permute (get_size this) perm tmp.vec_ this.vec_).bind
            fun newvec => some { this with vec_ := newvec }
    else none
  else some this

/-- `HIPAcceleratorVector::PermuteBackward(permutation)`: as `Permute` but
gathering through `kernel_permute_backward`. -/
def PermuteBackward (this : HIPAcceleratorVector) (perm : List Int) :
    Option HIPAcceleratorVector :=
  if 0 < get_size this then
    if get_size this = perm.length then
      (Allocate ⟨[], [], []⟩ (get_size this : Int)).bind fun tmp0 =>
        (CopyFrom tmp0 this false).bind fun tmp =>
          (kernel_permute_backward (get_size this) perm tmp.vec_ this.vec_).bind
            fun newvec => some { this with vec_ := newvec }
    else none
  else some this

end HIPVec

namespace MultiGrid

/-- State of a `MultiGrid` solver object for the hierarchy setters
(multigrid.cpp): the `build_` flag of the solver lifecycle, the `levels_`
count, the stored operator-hierarchy array pointer `op_level_` and the
bookkeeping arrays `restrict_op_level_` / `prolong_op_level_`. Operator
pointers are modelled as opaque ids (`Nat`); a null array argument is
`none`. -/
structure MGState where
  build_ : Bool
  levels_ : Int
  op_level_ : Option (List Nat)
  restrict_op_level_ : List Nat
  prolong_op_level_ : List Nat
deriving DecidableEq

/-- `MultiGrid::SetRestrictOperator(op)`: asserts `build_ == false`,
`op != NULL` and `levels_ > 0` (each fatal), allocates a fresh array of
`levels_` slots and copies the first `levels_ - 1` caller pointers into it
(reading past the end of the caller array is modelled as failure). -/
def SetRestrictOperator (st : MGState) (op : Option (List Nat)) :
    Option MGState :=
  if st.build_ = false then
    match op with
    | none => none
    | some l =>
      if 0 < st.levels_ then do
        let copied ← (List.range (st.levels_ - 1).toNat).mapM fun i => l.get? i
        pure { st with restrict_op_level_ := copied }
      else none
  else none

/-- `MultiGrid::SetProlongOperator(op)`: identical contract checks to
`SetRestrictOperator`, filling `prolong_op_level_`. -/
def SetProlongOperator (st : MGState) (op : Option (List Nat)) :
    Option MGState :=
  if st.build_ = false then
    match op with
    | none => none
    | some l =>
      if 0 < st.levels_ then do
        let copied ← (List.range (st.levels_ - 1).toNat).mapM fun i => l.get? i
        pure { st with prolong_op_level_ := copied }
      else none
  else none

/-- `MultiGrid::SetOperatorHierarchy(op)`: asserts `build_ == false` and
`op != NULL`, then stores the caller array pointer in `op_level_`. There is
no `levels_` check in the source. -/
def SetOperatorHierarchy (st : MGState) (op : Option (List Nat)) :
    Option MGState :=
  if st.build_ = false then
    match op with
    | none => none
    | some l => some { st with op_level_ := some l }
  else none

end MultiGrid

theorem mapM_get_take {α : Type} (l : List α) (n : Nat) (h : n ≤ l.length) :
    (List.range n).mapM (fun i => l.get? i) = some (l.take n) := by
  induction n with
  | zero => rfl
  | succ m ih =>
    rw [List.range_succ, List.mapM_append, ih (by omega)]
    have hm : m < l.length := by omega
    rw [List.take_succ]
    simp only [List.mapM_cons, List.mapM_nil, List.get?_eq_getElem?,
      List.getElem?_eq_getElem hm]
    rfl

/-- C3 counterexample: `SetOperatorHierarchy` invoked on an unbuilt solver
with `levels_ = 0` and a non-null (empty) array succeeds instead of aborting,
because the source function contains no `levels_ > 0` assertion. -/
theorem setOperatorHierarchy_no_levels_check :
    MultiGrid.SetOperatorHierarchy ⟨false, 0, none, [], []⟩ (some []) =
      some ⟨false, 0, some [], [], []⟩ := rfl

/-- C3 (amended): `SetRestrictOperator` and `SetProlongOperator` abort after
`Build()`, on a null array and on `levels_ ≤ 0`, and on success record
exactly the first `levels_ - 1` caller-supplied operator pointers;
`SetOperatorHierarchy` aborts after `Build()` and on a null array (but
performs no `levels_` check) and stores the caller array pointer. -/
theorem multigrid_setter_contracts :
    (∀ (st : MultiGrid.MGState) (op : Option (List Nat)), st.build_ = true →
      MultiGrid.SetRestrictOperator st op = none ∧
      MultiGrid.SetProlongOperator st op = none ∧
      MultiGrid.SetOperatorHierarchy st op = none) ∧
    (∀ st : MultiGrid.MGState,
      MultiGrid.SetRestrictOperator st none = none ∧
      MultiGrid.SetProlongOperator st none = none ∧
      MultiGrid.SetOperatorHierarchy st none = none) ∧
    (∀ (st : MultiGrid.MGState) (l : List Nat), st.levels_ ≤ 0 →
      MultiGrid.SetRestrictOperator st (some l) = none ∧
      MultiGrid.SetProlongOperator st (some l) = none) ∧
    (∀ (st : MultiGrid.MGState) (l : List Nat), st.build_ = false →
      0 < st.levels_ → (st.levels_ - 1).toNat ≤ l.length →
      MultiGrid.SetRestrictOperator st (some l) =
        some { st with restrict_op_level_ := l.take (st.levels_ - 1).toNat } ∧
      MultiGrid.SetProlongOperator st (some l) =
        some { st with prolong_op_level_ := l.take (st.levels_ - 1).toNat }) ∧
    (∀ (st : MultiGrid.MGState) (l : List Nat), st.build_ = false →
      MultiGrid.SetOperatorHierarchy st (some l) =
        some { st with op_level_ := some l }) := by
  refine ⟨?_, ?_, ?_, ?_, ?_⟩
  · intro st op hb
    simp [MultiGrid.SetRestrictOperator, MultiGrid.SetProlongOperator,
      MultiGrid.SetOperatorHierarchy, hb]
  · intro st
    simp only [MultiGrid.SetRestrictOperator, MultiGrid.SetProlongOperator,
      MultiGrid.SetOperatorHierarchy]
    rcases st.build_ <;> simp
  · intro st l hlev
    simp only [MultiGrid.SetRestrictOperator, MultiGrid.SetProlongOperator]
    rcases st.build_
    · simp [if_neg (show ¬ 0 < st.levels_ by omega)]
    · simp
  · intro st l hb hlev hlen
    simp only [MultiGrid.SetRestrictOperator, MultiGrid.SetProlongOperator,
      hb, if_pos rfl, if_pos hlev, mapM_get_take l _ hlen]
    exact ⟨rfl, rfl⟩
  · intro st l hb
    simp [MultiGrid.SetOperatorHierarchy, hb]

/-- C8: `Allocate(n)` with negative `n` is fatal; `Allocate(0)` leaves the
vector empty (no data buffer) and a subsequent positive `Allocate` succeeds;
`Allocate(n)` with `n > 0` clears any existing state and yields `n` zeros
(the invariant hypotheses are the index-buffer-size-at-most-size and
buffer-null-iff-size-zero invariants of the data model). -/
theorem allocate_contract :
    (∀ (v : HIPVec.HIPAcceleratorVector) (n : Int), n < 0 →
      HIPVec.Allocate v n = none) ∧
    (∀ v : HIPVec.HIPAcceleratorVector,
      ∃ w, HIPVec.Allocate v 0 = some w ∧ w.vec_ = [] ∧
        ∀ m : Int, 0 < m →
          HIPVec.Allocate w m = some { w with vec_ := List.replicate m.toNat 0 }) ∧
    (∀ (v : HIPVec.HIPAcceleratorVector) (n : Int), 0 < n →
      HIPVec.index_size v ≤ HIPVec.get_size v →
      (v.index_array_ = [] → v.index_buffer_ = []) →
      HIPVec.Allocate v n =
        some ⟨List.replicate n.toNat 0, [], []⟩) := by
  refine ⟨?_, ?_, ?_⟩
  · intro v n hn
    rw [HIPVec.Allocate, if_neg (by omega)]
  · intro v
    obtain ⟨vv, va, vb⟩ := v
    rcases vv with _ | ⟨x, vv⟩
    · refine ⟨⟨[], va, vb⟩, by simp [HIPVec.Allocate, HIPVec.get_size], rfl, ?_⟩
      intro m hm
      simp [HIPVec.Allocate, HIPVec.get_size, hm, le_of_lt hm]
    · rcases va with _ | ⟨y, va⟩
      · refine ⟨⟨[], [], vb⟩, ?_, rfl, ?_⟩
        · simp [HIPVec.Allocate, HIPVec.Clear, HIPVec.get_size,
            HIPVec.index_size]
        · intro m hm
          simp [HIPVec.Allocate, HIPVec.get_size, hm, le_of_lt hm]
      · refine ⟨⟨[], [], []⟩, ?_, rfl, ?_⟩
        · simp [HIPVec.Allocate, HIPVec.Clear, HIPVec.get_size,
            HIPVec.index_size]
        · intro m hm
          simp [HIPVec.Allocate, HIPVec.get_size, hm, le_of_lt hm]
  · intro v n hn hinv1 hinv2
    obtain ⟨vv, va, vb⟩ := v
    rcases vv with _ | ⟨x, vv⟩
    · have hva : va = [] := by
        rw [HIPVec.index_size, HIPVec.get_size] at hinv1
        exact List.length_eq_zero.mp (by simpa using hinv1)
      subst hva
      have hvb : vb = [] := hinv2 rfl
      subst hvb
      simp [HIPVec.Allocate, HIPVec.get_size, hn, le_of_lt hn]
    · rcases va with _ | ⟨y, va⟩
      · have hvb : vb = [] := hinv2 rfl
        subst hvb
        simp [HIPVec.Allocate, HIPVec.Clear, HIPVec.get_size,
          HIPVec.index_size, hn, le_of_lt hn]
      · simp [HIPVec.Allocate, HIPVec.Clear, HIPVec.get_size,
          HIPVec.index_size, hn, le_of_lt hn]

/-- C8 witness: allocating 0 then 2 on a populated vector with index data. -/
theorem allocate_contract_witness :
    ((-3 : Int) < 0 ∧ HIPVec.Allocate ⟨[5], [0], [7]⟩ (-3) = none) ∧
    (∃ w, HIPVec.Allocate (⟨[5], [0], [7]⟩ : HIPVec.HIPAcceleratorVector) 0 =
      some w ∧ w.vec_ = [] ∧ ∀ m : Int, 0 < m →
        HIPVec.Allocate w m = some { w with vec_ := List.replicate m.toNat 0 }) ∧
    ((0 : Int) < 2 ∧
      HIPVec.index_size (⟨[5], [0], [7]⟩ : HIPVec.HIPAcceleratorVector) ≤
        HIPVec.get_size (⟨[5], [0], [7]⟩ : HIPVec.HIPAcceleratorVector) ∧
      HIPVec.Allocate ⟨[5], [0], [7]⟩ 2 = some ⟨[0, 0], [], []⟩) :=
  ⟨⟨by decide, allocate_contract.1 ⟨[5], [0], [7]⟩ (-3) (by decide)⟩,
    allocate_contract.2.1 ⟨[5], [0], [7]⟩,
    ⟨by decide, by decide,
      (allocate_contract.2.2 ⟨[5], [0], [7]⟩ 2 (by decide) (by decide)
        (by intro h; exact absurd h (by decide))).trans rfl⟩⟩

/-- C4 counterexample: `AddScale` invoked on an empty vector with an operand
of size 1 (a size mismatch) is a silent no-op instead of a fatal contract
violation, because its size assertion sits inside the `size > 0` guard. -/
theorem addscale_empty_mismatch_noop :
    HIPVec.get_size (⟨[], [], []⟩ : HIPVec.HIPAcceleratorVector) ≠
      HIPVec.get_size (⟨[1], [], []⟩ : HIPVec.HIPAcceleratorVector) ∧
    HIPVec.AddScale ⟨[], [], []⟩ ⟨[1], [], []⟩ 1 = some ⟨[], [], []⟩ :=
  ⟨by decide, rfl⟩

/-- C4 (amended): for a non-empty vector every listed operation treats an
operand size mismatch as fatal; `Dot`/`DotNonConj` check size equality even
on an empty vector (and return 0 when both are empty); the five mutating
operations are silent no-ops on an empty vector regardless of the operand
size. -/
theorem vector_op_size_contracts :
    (∀ (this x y : HIPVec.HIPAcceleratorVector) (alpha beta gamma : ℚ),
      0 < HIPVec.get_size this →
      HIPVec.get_size this ≠ HIPVec.get_size x →
      HIPVec.AddScale this x alpha = none ∧
      HIPVec.ScaleAdd this alpha x = none ∧
      HIPVec.ScaleAddScale this alpha x beta = none ∧
      HIPVec.ScaleAdd2 this alpha x beta y gamma = none ∧
      HIPVec.PointWiseMult this x = none ∧
      HIPVec.Dot this x = none ∧
      HIPVec.DotNonConj this x = none) ∧
    (∀ (this x y : HIPVec.HIPAcceleratorVector) (alpha beta gamma : ℚ),
      0 < HIPVec.get_size this →
      HIPVec.get_size this = HIPVec.get_size x →
      HIPVec.get_size this ≠ HIPVec.get_size y →
      HIPVec.ScaleAdd2 this alpha x beta y gamma = none) ∧
    (∀ (this x y : HIPVec.HIPAcceleratorVector) (alpha beta gamma : ℚ),
      HIPVec.get_size this = 0 →
      HIPVec.AddScale this x alpha = some this ∧
      HIPVec.ScaleAdd this alpha x = some this ∧
      HIPVec.ScaleAddScale this alpha x beta = some this ∧
      HIPVec.ScaleAdd2 this alpha x beta y gamma = some this ∧
      HIPVec.PointWiseMult this x = some this) ∧
    (∀ this x : HIPVec.HIPAcceleratorVector,
      HIPVec.get_size this = 0 → 0 < HIPVec.get_size x →
      HIPVec.Dot this x = none ∧ HIPVec.DotNonConj this x = none) ∧
    (∀ this x : HIPVec.HIPAcceleratorVector,
      HIPVec.get_size this = 0 → HIPVec.get_size x = 0 →
      HIPVec.Dot this x = some 0 ∧ HIPVec.DotNonConj this x = some 0) := by
  refine ⟨?_, ?_, ?_, ?_, ?_⟩
  · intro this x y alpha beta gamma hpos hne
    refine ⟨?_, ?_, ?_, ?_, ?_, ?_, ?_⟩ <;>
      simp only [HIPVec.AddScale, HIPVec.ScaleAdd, HIPVec.ScaleAddScale,
        HIPVec.ScaleAdd2, HIPVec.PointWiseMult, HIPVec.Dot, HIPVec.DotNonConj,
        if_pos hpos, if_neg hne,
        if_neg (show ¬ (HIPVec.get_size this = HIPVec.get_size x ∧
          HIPVec.get_size this = HIPVec.get_size y) from fun h => hne h.1)]
  · intro this x y alpha beta gamma hpos hx hy
    simp only [HIPVec.ScaleAdd2, if_pos hpos,
      if_neg (show ¬ (HIPVec.get_size this = HIPVec.get_size x ∧
        HIPVec.get_size this = HIPVec.get_size y) from fun h => hy h.2)]
  · intro this x y alpha beta gamma h0
    have hne : ¬ 0 < HIPVec.get_size this := by omega
    refine ⟨?_, ?_, ?_, ?_, ?_⟩ <;>
      simp only [HIPVec.AddScale, HIPVec.ScaleAdd, HIPVec.ScaleAddScale,
        HIPVec.ScaleAdd2, HIPVec.PointWiseMult, if_neg hne]
  · intro this x h0 hx
    have hne : HIPVec.get_size this ≠ HIPVec.get_size x := by omega
    exact ⟨by simp only [HIPVec.Dot, if_neg hne],
      by simp only [HIPVec.DotNonConj, if_neg hne]⟩
  · intro this x h0 hx
    have he : HIPVec.get_size this = HIPVec.get_size x := by omega
    have hne : ¬ 0 < HIPVec.get_size this := by omega
    exact ⟨by simp only [HIPVec.Dot, if_pos he, if_neg hne],
      by simp only [HIPVec.DotNonConj, if_pos he, if_neg hne]⟩

/-- C4 witness: the fatal mismatch case on a concrete populated vector. -/
theorem vector_op_size_contracts_witness :
    (0 < HIPVec.get_size (⟨[1], [], []⟩ : HIPVec.HIPAcceleratorVector) ∧
      HIPVec.get_size (⟨[1], [], []⟩ : HIPVec.HIPAcceleratorVector) ≠
        HIPVec.get_size (⟨[1, 2], [], []⟩ : HIPVec.HIPAcceleratorVector)) ∧
    HIPVec.Dot ⟨[1], [], []⟩ ⟨[1, 2], [], []⟩ = none :=
  ⟨⟨by decide, by decide⟩,
    (vector_op_size_contracts.1 ⟨[1], [], []⟩ ⟨[1, 2], [], []⟩ ⟨[], [], []⟩
      1 1 1 (by decide) (by decide)).2.2.2.2.2.1⟩

theorem amaxIndex_fold (l : List ℚ) :
    ∀ n : Nat, n ≤ l.length → ∀ b0 : Nat, b0 < l.length →
      ((List.range n).foldl
          (fun best t => if |l.getD best 0| < |l.getD t 0| then t else best)
          b0 < l.length ∧
        |l.getD b0 0| ≤
          |l.getD ((List.range n).foldl
            (fun best t => if |l.getD best 0| < |l.getD t 0| then t else best)
            b0) 0| ∧
        ∀ k, k < n →
          |l.getD k 0| ≤
            |l.getD ((List.range n).foldl
              (fun best t => if |l.getD best 0| < |l.getD t 0| then t else best)
              b0) 0|) := by
  intro n
  induction n with
  | zero =>
    intro _ b0 hb0
    exact ⟨hb0, le_refl _, fun k hk => absurd hk (Nat.not_lt_zero k)⟩
  | succ m ih =>
    intro hn b0 hb0
    have IH := ih (by omega) b0 hb0
    rw [List.range_succ, List.foldl_append, List.foldl_cons, List.foldl_nil]
    set r := (List.range m).foldl
      (fun best t => if |l.getD best 0| < |l.getD t 0| then t else best) b0
      with hr
    by_cases hcmp : |l.getD r 0| < |l.getD m 0|
    · rw [if_pos hcmp]
      refine ⟨by omega, le_trans IH.2.1 (le_of_lt hcmp), ?_⟩
      intro k hk
      rcases Nat.lt_or_ge k m with hkm | hkm
      · exact le_trans (IH.2.2 k hkm) (le_of_lt hcmp)
      · have : k = m := by omega
        subst this
        exact le_refl _
    · rw [if_neg hcmp]
      refine ⟨IH.1, IH.2.1, ?_⟩
      intro k hk
      rcases Nat.lt_or_ge k m with hkm | hkm
      · exact IH.2.2 k hkm
      · have : k = m := by omega
        subst this
        exact le_of_not_lt hcmp

theorem amaxIndex_lt (l : List ℚ) (h : 0 < l.length) :
    HIPVec.amaxIndex l < l.length :=
  (amaxIndex_fold l l.length (le_refl _) 0 h).1

theorem amaxIndex_max (l : List ℚ) (h : 0 < l.length) :
    ∀ k, k < l.length → |l.getD k 0| ≤ |l.getD (HIPVec.amaxIndex l) 0| :=
  (amaxIndex_fold l l.length (le_refl _) 0 h).2.2

/-- C5: `Amax` on an empty vector returns index 0 and value 0; on a
non-empty vector it returns a valid index of a largest-magnitude element and
writes that element's absolute value. (The index-of-max collaborator
`hipblasTamax` is not part of the studied sources and is modelled from the
spec.) -/
theorem amax_contract :
    (∀ v : HIPVec.HIPAcceleratorVector, HIPVec.get_size v = 0 →
      HIPVec.Amax v = (0, 0)) ∧
    (∀ v : HIPVec.HIPAcceleratorVector, 0 < HIPVec.get_size v →
      (HIPVec.Amax v).1 < HIPVec.get_size v ∧
      (∀ k, k < HIPVec.get_size v →
        |v.vec_.getD k 0| ≤ |v.vec_.getD (HIPVec.Amax v).1 0|) ∧
      (HIPVec.Amax v).2 = |v.vec_.getD (HIPVec.Amax v).1 0|) := by
  constructor
  · intro v h0
    have hne : ¬ 0 < HIPVec.get_size v := by omega
    rw [HIPVec.Amax]
    simp only [if_neg hne, abs_zero]
  · intro v hpos
    rw [HIPVec.Amax]
    simp only [if_pos hpos]
    exact ⟨amaxIndex_lt v.vec_ hpos, amaxIndex_max v.vec_ hpos, trivial⟩

/-- C5 witness: the largest-magnitude element of `[1, -3, 2]` sits at
index 1 and has absolute value 3. -/
theorem amax_contract_witness :
    0 < HIPVec.get_size (⟨[1, -3, 2], [], []⟩ : HIPVec.HIPAcceleratorVector) ∧
    ((HIPVec.Amax (⟨[1, -3, 2], [], []⟩ : HIPVec.HIPAcceleratorVector)).1 <
      HIPVec.get_size (⟨[1, -3, 2], [], []⟩ : HIPVec.HIPAcceleratorVector) ∧
      (∀ k, k < HIPVec.get_size
          (⟨[1, -3, 2], [], []⟩ : HIPVec.HIPAcceleratorVector) →
        |([1, -3, 2] : List ℚ).getD k 0| ≤
          |([1, -3, 2] : List ℚ).getD
            (HIPVec.Amax
              (⟨[1, -3, 2], [], []⟩ : HIPVec.HIPAcceleratorVector)).1 0|) ∧
      (HIPVec.Amax (⟨[1, -3, 2], [], []⟩ : HIPVec.HIPAcceleratorVector)).2 =
        |([1, -3, 2] : List ℚ).getD
          (HIPVec.Amax
            (⟨[1, -3, 2], [], []⟩ : HIPVec.HIPAcceleratorVector)).1 0|) :=
  ⟨by decide, amax_contract.2 ⟨[1, -3, 2], [], []⟩ (by decide)⟩

/-- Allocation into a freshly constructed (fully empty) vector. -/
theorem Allocate_empty (t : Int) (ht : 0 ≤ t) :
    HIPVec.Allocate ⟨[], [], []⟩ t =
      some ⟨List.replicate t.toNat 0, [], []⟩ := by
  rw [HIPVec.Allocate, if_pos ht]
  simp only []
  rw [if_neg (show ¬ 0 < HIPVec.get_size ⟨[], [], []⟩ by decide)]
  rcases Int.lt_or_le 0 t with h | h
  · rw [if_pos h]
  · rw [if_neg (by omega)]
    have ht0 : t = 0 := by omega
    subst ht0
    rfl

/-- `CopyTo` is `CopyFrom` with the roles of the two objects exchanged: the
source guards and copies are mirrored statement by statement. -/
theorem CopyTo_eq_CopyFrom (this dst : HIPVec.HIPAcceleratorVector)
    (same : Bool) :
    HIPVec.CopyTo this dst same = HIPVec.CopyFrom dst this same := by
  rw [HIPVec.CopyTo, HIPVec.CopyFrom]
  congr 1
  funext d1
  by_cases hc : HIPVec.get_size d1 = HIPVec.get_size this ∧
      HIPVec.index_size d1 = HIPVec.index_size this
  · have hc2 : HIPVec.get_size this = HIPVec.get_size d1 ∧
        HIPVec.index_size this = HIPVec.index_size d1 := ⟨hc.1.symm, hc.2.symm⟩
    rw [if_pos hc, if_pos hc2, hc.1]
  · have hc2 : ¬ (HIPVec.get_size this = HIPVec.get_size d1 ∧
        HIPVec.index_size this = HIPVec.index_size d1) :=
      fun h => hc ⟨h.1.symm, h.2.symm⟩
    rw [if_neg hc, if_neg hc2]

/-- C6: copying into an empty destination auto-allocates it to the source
size, propagates the index-buffer size with a freshly allocated index buffer,
and copies the data and the index array; copying into a non-empty
destination whose size or index size disagrees with the source is fatal.
The hypothesis `index_size src ≤ get_size src` is the index-buffer invariant
of the data model. -/
theorem copy_auto_allocation :
    (∀ dst src : HIPVec.HIPAcceleratorVector,
      dst.vec_ = [] → dst.index_array_ = [] → dst.index_buffer_ = [] →
      HIPVec.index_size src ≤ HIPVec.get_size src →
      HIPVec.CopyFrom dst src false =
        some ⟨src.vec_, src.index_array_,
          List.replicate (HIPVec.index_size src) 0⟩ ∧
      HIPVec.CopyTo src dst false =
        some ⟨src.vec_, src.index_array_,
          List.replicate (HIPVec.index_size src) 0⟩) ∧
    (∀ dst src : HIPVec.HIPAcceleratorVector,
      dst.vec_ ≠ [] →
      (HIPVec.get_size dst ≠ HIPVec.get_size src ∨
        HIPVec.index_size dst ≠ HIPVec.index_size src) →
      HIPVec.CopyFrom dst src false = none ∧
      HIPVec.CopyTo src dst false = none) := by
  constructor
  · intro dst src h1 h2 h3 hinv
    rw [CopyTo_eq_CopyFrom]
    refine ⟨?_, ?_⟩ <;>
    · obtain ⟨dv, da, db⟩ := dst
      obtain ⟨sv, sa, sb⟩ := src
      rw [show dv = [] from h1, show da = [] from h2, show db = [] from h3]
      rcases sv with _ | ⟨x, sv⟩
      · have hsa : sa = [] := by
          rw [HIPVec.index_size, HIPVec.get_size] at hinv
          exact List.length_eq_zero.mp (by simpa using hinv)
        subst hsa
        simp [HIPVec.CopyFrom, HIPVec.Allocate, HIPVec.get_size,
          HIPVec.index_size]
      · rcases sa with _ | ⟨y, sa⟩
        · rw [HIPVec.CopyFrom,
            if_pos (show HIPVec.get_size ⟨[], [], []⟩ = 0 from rfl),
            Allocate_empty _ (by omega), Option.some_bind,
            if_pos (show HIPVec.index_size ⟨List.replicate
              ((HIPVec.get_size (⟨x :: sv, [], sb⟩ :
                HIPVec.HIPAcceleratorVector) : Int)).toNat 0, [], []⟩ = 0
              from rfl),
            if_neg (by simp [HIPVec.index_size]), Option.some_bind,
            if_pos (by simp [HIPVec.get_size, HIPVec.index_size]),
            if_pos rfl, if_pos (by simp [HIPVec.get_size])]
          rfl
        · rw [HIPVec.CopyFrom,
            if_pos (show HIPVec.get_size ⟨[], [], []⟩ = 0 from rfl),
            Allocate_empty _ (by omega), Option.some_bind,
            if_pos (show HIPVec.index_size ⟨List.replicate
              ((HIPVec.get_size (⟨x :: sv, y :: sa, sb⟩ :
                HIPVec.HIPAcceleratorVector) : Int)).toNat 0, [], []⟩ = 0
              from rfl),
            if_pos (by simp [HIPVec.index_size]), Option.some_bind,
            if_pos (by simp [HIPVec.get_size, HIPVec.index_size]),
            if_pos rfl, if_pos (by simp [HIPVec.get_size])]
  · intro dst src hne hmis
    rw [CopyTo_eq_CopyFrom]
    have h0 : ¬ HIPVec.get_size dst = 0 := by
      rw [HIPVec.get_size]
      intro h
      exact hne (List.length_eq_zero.mp h)
    have hcond : ¬ (HIPVec.get_size src = HIPVec.get_size dst ∧
        HIPVec.index_size src = HIPVec.index_size dst) := by
      intro h
      rcases hmis with hm | hm
      · exact hm h.1.symm
      · exact hm h.2.symm
    constructor <;>
    · rw [HIPVec.CopyFrom, if_neg h0, Option.some_bind, if_neg hcond]

/-- C6 witness: copying a size-2 source with a one-entry index array into a
fully empty destination, and a size mismatch on a non-empty destination. -/
theorem copy_auto_allocation_witness :
    HIPVec.CopyFrom ⟨[], [], []⟩ ⟨[4, 5], [1], [9]⟩ false =
      some ⟨[4, 5], [1], [0]⟩ ∧
    HIPVec.CopyFrom ⟨[7], [], []⟩ ⟨[4, 5], [1], [9]⟩ false = none := by
  constructor
  · have h := (copy_auto_allocation.1 ⟨[], [], []⟩ ⟨[4, 5], [1], [9]⟩
      rfl rfl rfl (by decide)).1
    exact h.trans rfl
  · exact (copy_auto_allocation.2 ⟨[7], [], []⟩ ⟨[4, 5], [1], [9]⟩
      (by decide) (Or.inl (by decide))).1

/-- C9: the asynchronous device-to-device copy entry points have bodies
identical to the synchronous ones (the source even issues plain `hipMemcpy`
there), so they produce exactly the same final state. -/
theorem async_copy_agrees_with_sync :
    (∀ (a b : HIPVec.HIPAcceleratorVector) (s : Bool),
      HIPVec.CopyFromAsync a b s = HIPVec.CopyFrom a b s) ∧
    (∀ (a b : HIPVec.HIPAcceleratorVector) (s : Bool),
      HIPVec.CopyToAsync a b s = HIPVec.CopyTo a b s) :=
  ⟨fun _ _ _ => rfl, fun _ _ _ => rfl⟩

/-- C10: copying a vector onto itself is the identity; the source detects
the same-object case through the pointer comparison and skips the transfer.
The hypothesis is the buffer-null-iff-size-zero/index-size invariant. -/
theorem self_copy_identity (v : HIPVec.HIPAcceleratorVector)
    (hinv : v.vec_ = [] → v.index_array_ = []) :
    HIPVec.CopyFrom v v true = some v ∧ HIPVec.CopyTo v v true = some v := by
  have hmain : HIPVec.CopyFrom v v true = some v := by
    obtain ⟨vv, va, vb⟩ := v
    rcases vv with _ | ⟨x, vv⟩
    · have hva : va = [] := hinv rfl
      subst hva
      simp [HIPVec.CopyFrom, HIPVec.Allocate, HIPVec.get_size,
        HIPVec.index_size]
    · simp [HIPVec.CopyFrom, HIPVec.get_size, HIPVec.index_size]
  exact ⟨hmain, by rw [CopyTo_eq_CopyFrom]; exact hmain⟩

/-- C10 witness: self-copy of a populated vector with index data. -/
theorem self_copy_identity_witness :
    HIPVec.CopyFrom ⟨[2], [0], [3]⟩ ⟨[2], [0], [3]⟩ true =
      some ⟨[2], [0], [3]⟩ ∧
    HIPVec.CopyTo ⟨[2], [0], [3]⟩ ⟨[2], [0], [3]⟩ true =
      some ⟨[2], [0], [3]⟩ :=
  self_copy_identity ⟨[2], [0], [3]⟩ (fun h => absurd h (by decide))

/-- Success and write-set description of the scatter kernel under an
in-range injective permutation. -/
theorem kernel_permute_spec (n : Nat) (p : List Int) (src out : List ℚ)
    (hout : out.length = n)
    (hb : ∀ i, i < n → 0 ≤ p.getD i 0 ∧ p.getD i 0 < (n : Int))
    (hinj : ∀ i j, i < n → j < n → p.getD i 0 = p.getD j 0 → i = j) :
    ∃ r, HIPVec.kernel_permute n p src out = some r ∧ r.length = n ∧
      ∀ i, i < n → r.getD (p.getD i 0).toNat 0 = src.getD i 0 := by
  have hstep := foldlM_eq_foldl
    (fun (o : List ℚ) (i : Nat) =>
      if 0 ≤ p.getD i 0 ∧ p.getD i 0 < (o.length : Int) then
        some (o.set (p.getD i 0).toNat (src.getD i 0))
      else none)
    (fun o i => o.set (p.getD i 0).toNat (src.getD i 0))
    (fun o => o.length = n)
    (List.range n)
    (fun o i _ hP => by
      simp only []
      rw [List.length_set]
      exact hP)
    (fun o i hi hP => by
      have hi2 := List.mem_range.mp hi
      simp only []
      rw [if_pos ⟨(hb i hi2).1, by rw [hP]; exact (hb i hi2).2⟩])
    out hout
  have hw := foldl_writes
    (fun o i => o.set (p.getD i 0).toNat (src.getD i 0))
    (fun i k => k = (p.getD i 0).toNat)
    (fun i _ => src.getD i 0)
    (List.range n)
    (fun o i _ => List.length_set o _ _)
    (fun o i k _ hc hk => by subst hc; exact getD_set_eq o _ hk _)
    (fun o i k _ hc => getD_set_ne o (fun h => hc h.symm) _)
    out
  refine ⟨_, by rw [HIPVec.kernel_permute]; exact hstep, by rw [hw.1, hout], ?_⟩
  intro i hi
  have hbi := hb i hi
  refine hw.2.2 ((p.getD i 0).toNat) i (List.mem_range.mpr hi) rfl ?_ ?_
  · intro i2 hi2 hc2
    have hb2 := hb i2 (List.mem_range.mp hi2)
    have hpe : p.getD i2 0 = p.getD i 0 := by omega
    rw [hinj i2 i (List.mem_range.mp hi2) hi hpe]
  · rw [hout]
    omega

/-- Success and write-set description of the gather kernel under an
in-range permutation. -/
theorem kernel_permute_backward_spec (n : Nat) (p : List Int) (src out : List ℚ)
    (hsrc : src.length = n) (hout : out.length = n)
    (hb : ∀ i, i < n → 0 ≤ p.getD i 0 ∧ p.getD i 0 < (n : Int)) :
    ∃ r, HIPVec.kernel_permute_backward n p src out = some r ∧ r.length = n ∧
      ∀ i, i < n → r.getD i 0 = src.getD (p.getD i 0).toNat 0 := by
  have hstep := foldlM_eq_foldl
    (fun (o : List ℚ) (i : Nat) =>
      if 0 ≤ p.getD i 0 ∧ p.getD i 0 < (src.length : Int) then
        some (o.set i (src.getD (p.getD i 0).toNat 0))
      else none)
    (fun o i => o.set i (src.getD (p.getD i 0).toNat 0))
    (fun o => o.length = n)
    (List.range n)
    (fun o i _ hP => by
      simp only []
      rw [List.length_set]
      exact hP)
    (fun o i hi hP => by
      have hi2 := List.mem_range.mp hi
      simp only []
      rw [if_pos ⟨(hb i hi2).1, by rw [hsrc]; exact (hb i hi2).2⟩])
    out hout
  have hw := foldl_writes
    (fun o i => o.set i (src.getD (p.getD i 0).toNat 0))
    (fun i k => k = i)
    (fun i _ => src.getD (p.getD i 0).toNat 0)
    (List.range n)
    (fun o i _ => List.length_set o _ _)
    (fun o i k _ hc hk => by subst hc; exact getD_set_eq o _ hk _)
    (fun o i k _ hc => getD_set_ne o (fun h => hc h.symm) _)
    out
  refine ⟨_, by rw [HIPVec.kernel_permute_backward]; exact hstep,
    by rw [hw.1, hout], ?_⟩
  intro i hi
  refine hw.2.2 i i (List.mem_range.mpr hi) rfl ?_ ?_
  · intro i2 _ hc2
    rw [hc2]
  · rw [hout]
    exact hi

/-- The `Allocate` + `CopyFrom` temporary-vector construction used by
`Permute`/`PermuteBackward` yields an exact copy of the data buffer. -/
theorem CopyFrom_fresh (v : HIPVec.HIPAcceleratorVector)
    (hvi : v.index_array_ = []) (hn : 0 < HIPVec.get_size v) :
    HIPVec.CopyFrom ⟨List.replicate (HIPVec.get_size v) 0, [], []⟩ v false =
      some ⟨v.vec_, [], []⟩ := by
  rw [HIPVec.CopyFrom,
    if_neg (show ¬ HIPVec.get_size
      ⟨List.replicate (HIPVec.get_size v) 0, [], []⟩ = 0 from by
      rw [HIPVec.get_size]
      rw [show (⟨List.replicate (HIPVec.get_size v) 0, [], []⟩ :
        HIPVec.HIPAcceleratorVector).vec_ =
        List.replicate (HIPVec.get_size v) 0 from rfl, List.length_replicate]
      omega),
    Option.some_bind,
    if_pos ⟨by simp [HIPVec.get_size], by simp [HIPVec.index_size, hvi]⟩,
    if_pos rfl,
    if_pos (show 0 < HIPVec.get_size
      ⟨List.replicate (HIPVec.get_size v) 0, [], []⟩ from by
      simpa [HIPVec.get_size] using hn)]
  rw [show (⟨List.replicate (HIPVec.get_size v) 0, [], []⟩ :
      HIPVec.HIPAcceleratorVector).index_buffer_ = [] from rfl, hvi]

/-- `Permute` on an index-buffer-free vector reduces to the scatter kernel
on the data buffer. -/
theorem Permute_kernel (v : HIPVec.HIPAcceleratorVector) (p : List Int)
    (hvi : v.index_array_ = []) (hn : 0 < HIPVec.get_size v)
    (hlen : HIPVec.get_size v = p.length) :
    HIPVec.Permute v p =
      (HIPVec.kernel_permute (HIPVec.get_size v) p v.vec_ v.vec_).bind
        fun newvec => some { v with vec_ := newvec } := by
  rw [HIPVec.Permute, if_pos hn, if_pos hlen, Allocate_empty _ (by omega),
    Option.some_bind,
    show (((HIPVec.get_size v : Nat) : Int)).toNat = HIPVec.get_size v
      from by omega,
    CopyFrom_fresh v hvi hn, Option.some_bind]

/-- `PermuteBackward` on an index-buffer-free vector reduces to the gather
kernel on the data buffer. -/
theorem PermuteBackward_kernel (v : HIPVec.HIPAcceleratorVector) (p : List Int)
    (hvi : v.index_array_ = []) (hn : 0 < HIPVec.get_size v)
    (hlen : HIPVec.get_size v = p.length) :
    HIPVec.PermuteBackward v p =
      (HIPVec.kernel_permute_backward (HIPVec.get_size v) p v.vec_ v.vec_).bind
        fun newvec => some { v with vec_ := newvec } := by
  rw [HIPVec.PermuteBackward, if_pos hn, if_pos hlen, Allocate_empty _ (by omega),
    Option.some_bind,
    show (((HIPVec.get_size v : Nat) : Int)).toNat = HIPVec.get_size v
      from by omega,
    CopyFrom_fresh v hvi hn, Option.some_bind]

/-- C7 counterexample: on a vector carrying an index buffer
(`index_size_ = 1`), `Permute` with the identity permutation of size 1
aborts: the temporary copy `vec_tmp.CopyFrom(*this)` fails its
`index_size_` equality assertion, so no scatter is performed (the claim
requires the scattered result). -/
theorem permute_with_index_buffer_fatal :
    HIPVec.Permute ⟨[1], [0], [0]⟩ [0] = none := rfl

/-- C7 (amended): for vectors without an attached index buffer and an
in-range injective (hence bijective) permutation array, `Permute` scatters
(`out[p[i]] = in[i]`), `PermuteBackward` gathers (`out[i] = in[p[i]]`), and
`Permute` followed by `PermuteBackward` with the same array restores the
vector exactly. -/
theorem permute_roundtrip :
    ∀ (v : HIPVec.HIPAcceleratorVector) (p : List Int),
      v.index_array_ = [] →
      p.length = HIPVec.get_size v →
      (∀ i, i < HIPVec.get_size v →
        0 ≤ p.getD i 0 ∧ p.getD i 0 < (HIPVec.get_size v : Int)) →
      (∀ i, i < HIPVec.get_size v → ∀ j, j < HIPVec.get_size v →
        p.getD i 0 = p.getD j 0 → i = j) →
      ∃ w, HIPVec.Permute v p = some w ∧
        w.index_array_ = v.index_array_ ∧
        w.index_buffer_ = v.index_buffer_ ∧
        w.vec_.length = HIPVec.get_size v ∧
        (∀ i, i < HIPVec.get_size v →
          w.vec_.getD (p.getD i 0).toNat 0 = v.vec_.getD i 0) ∧
        HIPVec.PermuteBackward w p = some v ∧
        ∃ u, HIPVec.PermuteBackward v p = some u ∧
          u.index_array_ = v.index_array_ ∧
          u.index_buffer_ = v.index_buffer_ ∧
          u.vec_.length = HIPVec.get_size v ∧
          ∀ i, i < HIPVec.get_size v →
            u.vec_.getD i 0 = v.vec_.getD (p.getD i 0).toNat 0 := by
  intro v p hvi hplen hb hinj
  rcases Nat.eq_zero_or_pos (HIPVec.get_size v) with h0 | hpos
  · have hskip : ∀ q : List Int, HIPVec.Permute v q = some v := by
      intro q
      rw [HIPVec.Permute, if_neg (by omega)]
    have hskip2 : ∀ q : List Int, HIPVec.PermuteBackward v q = some v := by
      intro q
      rw [HIPVec.PermuteBackward, if_neg (by omega)]
    exact ⟨v, hskip p, rfl, rfl, by rw [HIPVec.get_size],
      fun i hi => absurd hi (by omega), hskip2 p,
      v, hskip2 p, rfl, rfl, by rw [HIPVec.get_size],
      fun i hi => absurd hi (by omega)⟩
  · obtain ⟨scat, hscat, hscatlen, hscatval⟩ :=
      kernel_permute_spec (HIPVec.get_size v) p v.vec_ v.vec_ rfl hb
        (fun i j hi hj => hinj i hi j hj)
    obtain ⟨gat, hgat, hgatlen, hgatval⟩ :=
      kernel_permute_backward_spec (HIPVec.get_size v) p v.vec_ v.vec_
        rfl rfl hb
    have hP : HIPVec.Permute v p = some { v with vec_ := scat } := by
      rw [Permute_kernel v p hvi hpos hplen.symm, hscat, Option.some_bind]
    have hwidx : ({ v with vec_ := scat } :
        HIPVec.HIPAcceleratorVector).index_array_ = v.index_array_ := rfl
    have hwsize : HIPVec.get_size { v with vec_ := scat } =
        HIPVec.get_size v := by
      rw [HIPVec.get_size, HIPVec.get_size]
      exact hscatlen
    obtain ⟨gat2, hgat2, hgat2len, hgat2val⟩ :=
      kernel_permute_backward_spec (HIPVec.get_size v) p scat scat
        hscatlen hscatlen hb
    have hround : HIPVec.PermuteBackward { v with vec_ := scat } p = some v := by
      rw [PermuteBackward_kernel { v with vec_ := scat } p hvi
        (by rw [hwsize]; exact hpos) (by rw [hwsize]; exact hplen.symm)]
      rw [show ({ v with vec_ := scat } :
        HIPVec.HIPAcceleratorVector).vec_ = scat from rfl, hwsize, hgat2,
        Option.some_bind]
      have hveq : gat2 = v.vec_ := by
        refine List.ext_get (by rw [hgat2len, HIPVec.get_size]) ?_
        intro k h1 h2
        rw [← getD_of_lt _ k h1, ← getD_of_lt _ k h2]
        have hk : k < HIPVec.get_size v := by
          rw [HIPVec.get_size]
          exact h2
        rw [hgat2val k hk, hscatval k hk]
      rw [hveq]
    refine ⟨{ v with vec_ := scat }, hP, rfl, rfl, hscatlen,
      fun i hi => hscatval i hi, hround,
      { v with vec_ := gat }, ?_, rfl, rfl, hgatlen,
      fun i hi => hgatval i hi⟩
    rw [PermuteBackward_kernel v p hvi hpos hplen.symm, hgat, Option.some_bind]

/-- C7 witness: the permutation `[2, 0, 1]` on the vector `[10, 20, 30]`. -/
theorem permute_roundtrip_witness :
    ((⟨[10, 20, 30], [], []⟩ :
        HIPVec.HIPAcceleratorVector).index_array_ = [] ∧
      ([2, 0, 1] : List Int).length =
        HIPVec.get_size ⟨[10, 20, 30], [], []⟩ ∧
      (∀ i, i < HIPVec.get_size
          (⟨[10, 20, 30], [], []⟩ : HIPVec.HIPAcceleratorVector) →
        0 ≤ ([2, 0, 1] : List Int).getD i 0 ∧
          ([2, 0, 1] : List Int).getD i 0 <
            (HIPVec.get_size (⟨[10, 20, 30], [], []⟩ :
              HIPVec.HIPAcceleratorVector) : Int)) ∧
      (∀ i, i < HIPVec.get_size
          (⟨[10, 20, 30], [], []⟩ : HIPVec.HIPAcceleratorVector) →
        ∀ j, j < HIPVec.get_size
          (⟨[10, 20, 30], [], []⟩ : HIPVec.HIPAcceleratorVector) →
        ([2, 0, 1] : List Int).getD i 0 = ([2, 0, 1] : List Int).getD j 0 →
        i = j)) ∧
    (∃ w, HIPVec.Permute ⟨[10, 20, 30], [], []⟩ [2, 0, 1] = some w ∧
      w.index_array_ = (⟨[10, 20, 30], [], []⟩ :
        HIPVec.HIPAcceleratorVector).index_array_ ∧
      w.index_buffer_ = (⟨[10, 20, 30], [], []⟩ :
        HIPVec.HIPAcceleratorVector).index_buffer_ ∧
      w.vec_.length = HIPVec.get_size ⟨[10, 20, 30], [], []⟩ ∧
      (∀ i, i < HIPVec.get_size
          (⟨[10, 20, 30], [], []⟩ : HIPVec.HIPAcceleratorVector) →
        w.vec_.getD (([2, 0, 1] : List Int).getD i 0).toNat 0 =
          ([10, 20, 30] : List ℚ).getD i 0) ∧
      HIPVec.PermuteBackward w [2, 0, 1] = some ⟨[10, 20, 30], [], []⟩ ∧
      ∃ u, HIPVec.PermuteBackward ⟨[10, 20, 30], [], []⟩ [2, 0, 1] =
          some u ∧
        u.index_array_ = (⟨[10, 20, 30], [], []⟩ :
          HIPVec.HIPAcceleratorVector).index_array_ ∧
        u.index_buffer_ = (⟨[10, 20, 30], [], []⟩ :
          HIPVec.HIPAcceleratorVector).index_buffer_ ∧
        u.vec_.length = HIPVec.get_size ⟨[10, 20, 30], [], []⟩ ∧
        ∀ i, i < HIPVec.get_size
            (⟨[10, 20, 30], [], []⟩ : HIPVec.HIPAcceleratorVector) →
          u.vec_.getD i 0 =
            ([10, 20, 30] : List ℚ).getD
              (([2, 0, 1] : List Int).getD i 0).toNat 0) :=
  ⟨⟨rfl, by decide, by decide, by decide⟩,
    permute_roundtrip ⟨[10, 20, 30], [], []⟩ [2, 0, 1] rfl (by decide)
      (by decide) (by decide)⟩

/-- C3 witness: the successful case at a concrete unbuilt two-level state. -/
theorem multigrid_setter_contracts_witness :
    (false = false ∧ (0 : Int) < 2 ∧ ((2 : Int) - 1).toNat ≤ [7, 8].length) ∧
    MultiGrid.SetRestrictOperator ⟨false, 2, none, [], []⟩ (some [7, 8]) =
      some ⟨false, 2, none, [7], []⟩ := by
  refine ⟨⟨rfl, by decide, by decide⟩, ?_⟩
  have h := (multigrid_setter_contracts.2.2.2.1 ⟨false, 2, none, [], []⟩
    [7, 8] rfl (by decide) (by decide)).1
  rw [h]
  rfl

end RocSpec

/-- C1: `ApplyAdd(in, scalar, out)` ignores its `scalar` argument: on the
2×2 grid with `in = [1,0,0,0]`, `out = [0,0,0,0]` and `scalar = 2` it adds
the unscaled product `A·in = [4,-1,-1,0]` to `out`, not
`2·A·in = [8,-2,-2,0]` as the claim requires. -/
theorem applyadd_ignores_scalar :
    RocSpec.Laplace2D.ApplyAdd 2 [1, 0, 0, 0] 2 [0, 0, 0, 0] =
      some [4, -1, -1, 0] ∧
    some ([4, -1, -1, 0] : List ℚ) ≠ some [8, -2, -2, 0] := by
  constructor
  · norm_num [RocSpec.Laplace2D.ApplyAdd, RocSpec.Laplace2D.cornersAdd,
      RocSpec.Laplace2D.rd, List.range', Int.toNat_ofNat, List.getD,
      (show Int.toNat 2 = 2 from rfl), (show Int.toNat 3 = 3 from rfl)]
  · intro h
    rw [Option.some_inj] at h
    have h4 : (4 : ℚ) = 8 := by
      have h0 := congrArg (fun l : List ℚ => l.getD 0 0) h
      simp at h0
    norm_num at h4

/-- C2 counterexample: on the 1×1 grid the corner statements of `Apply` read
the input buffer at the out-of-range indices -1 and 1 (undefined behaviour),
so the claimed result `out = [4*in[0]] = [20]` is not produced. -/
theorem apply_size_one_out_of_bounds :
    RocSpec.Laplace2D.Apply 1 [5] [0] = none ∧
    RocSpec.Laplace2D.laplaceSpec 1 [5] = [20] := by
  constructor
  · norm_num [RocSpec.Laplace2D.Apply, RocSpec.Laplace2D.corners,
      RocSpec.Laplace2D.rd, List.range', Int.toNat_ofNat, List.getD,
      (show Int.toNat 2 = 2 from rfl), (show Int.toNat 3 = 3 from rfl)]
  · norm_num [RocSpec.Laplace2D.laplaceSpec, RocSpec.Laplace2D.laplaceEntry,
      List.range, List.range.loop, List.getD]

/-- C2 witness: the general theorem applied on the 2×2 grid. -/
theorem apply_laplace_witness :
    (2 ≤ 2 ∧ ([1, 0, 0, 0] : List ℚ).length = 2 * 2 ∧
      ([7, 7, 7, 7] : List ℚ).length = 2 * 2) ∧
    RocSpec.Laplace2D.Apply 2 [1, 0, 0, 0] [7, 7, 7, 7] =
      some (RocSpec.Laplace2D.laplaceSpec 2 [1, 0, 0, 0]) :=
  ⟨⟨by decide, by decide, by decide⟩,
    RocSpec.Laplace2D.Apply_eq_laplaceSpec (by decide) (by decide) (by decide)⟩
